import Mathlib

/-!
Shallow embedding of the epictetus DNS reconciliation controller
(src/app/models.py, src/app/k8s/client.py, src/app/cloudflare/client.py,
src/app/services/dns_manager.py) and proofs about its claims.

Modelling conventions:
* Python dicts become association lists; `dictGet?` is `dict.get`, `dictInsert`
  is `dict[k] = v` (replace in place, else append, matching insertion order).
* Python truthiness of an optional string (`None` and `""` are falsy) is
  `truthy?`.
* Machine-generated fields irrelevant to control flow (uuid event ids,
  wall-clock timestamps, log-only metadata such as the per-record zone name
  computed for logging, and the `service`/`metadata` diagnostic entries) are
  omitted or passed in as opaque parameters; a comment marks each omission.
* The CloudFlare and Kubernetes HTTP transports are modelled as always
  delivering the request; the only failures modelled are the ones raised by
  the code itself (zone resolution failure, `int()` parse failure) plus
  environment-level listing failures, which enter through `Env` as
  `Except` values.  Fallible code returns `Except String`.
* `perform_full_sync` (dns_manager.py line 357) reads the local variable
  `nodes_with_all_deletion_taints`, which is never assigned in that function
  (the function assigns `nodes_with_deletion_taints` at line 257).  In Python
  this raises `NameError` while the success `SyncReport` is being constructed,
  after all provider mutations have happened; control then reaches the
  `except` branch.  The embedding makes that explicit: the success report is
  never built, and the failure report carries the NameError text
  (apostrophes of the CPython message are dropped from the modelled string).
-/

namespace Epictetus

/-- Python truthiness of an optional string: `None` and `""` are falsy. -/
def truthy? : Option String → Bool
  | none => false
  | some s => s ≠ ""

/-- Boolean list membership for strings (Python `in` on a list or set). -/
def memS (a : String) : List String → Bool
  | [] => false
  | b :: bs => if b = a then true else memS a bs

/-- Python `dict.get(k)` over an association list (keys unique by construction). -/
def dictGet? {α : Type} : List (String × α) → String → Option α
  | [], _ => none
  | (k, v) :: rest, key => if k = key then some v else dictGet? rest key

/-- Python `d[k] = v`: replace the value in place if the key exists, else append. -/
def dictInsert {α : Type} : List (String × α) → String → α → List (String × α)
  | [], k, v => [(k, v)]
  | (k', v') :: rest, k, v =>
      if k' = k then (k, v) :: rest else (k', v') :: dictInsert rest k v

/-- Whitespace test used by the Python `str.strip()` model. -/
def isPySpace (c : Char) : Bool :=
  c = ' ' || c = '\t' || c = '\n' || c = '\r'

/-- Python `str.strip()` over the underlying character list. -/
def pyStrip (cs : List Char) : List Char :=
  ((cs.dropWhile isPySpace).reverse.dropWhile isPySpace).reverse

/-- Digits-only check plus decimal value of a character list. -/
def digitsVal? : List Char → Option Nat
  | [] => none
  | cs =>
      if cs.all Char.isDigit then
        some (cs.foldl (fun a c => a * 10 + (c.toNat - 48)) 0)
      else none

/-- Python `int(s)` on a string: optional surrounding whitespace, optional
sign, decimal digits; anything else raises `ValueError` (modelled as `none`).
(The CPython underscore-separator extension is not modelled; no caller of the
claims depends on it.) -/
def pyInt? (s : String) : Option Int :=
  match pyStrip s.data with
  | [] => none
  | c :: cs =>
      if c = '-' then (digitsVal? cs).map (fun n => -(n : Int))
      else if c = '+' then (digitsVal? cs).map (fun n => (n : Int))
      else (digitsVal? (c :: cs)).map (fun n => (n : Int))

/-- Python `str.lower()` (ASCII; hostnames and annotation values are ASCII). -/
def pyLower (s : String) : String := String.mk (s.data.map Char.toLower)

/-- Python `s.split('.')`-style splitting of a character list on one character. -/
def splitOnChar (c : Char) : List Char → List (List Char)
  | [] => [[]]
  | x :: xs =>
      let r := splitOnChar c xs
      if x = c then [] :: r
      else
        match r with
        | [] => [[x]]
        | g :: gs => (x :: g) :: gs

/-- Python `'.'.join(labels)`. -/
def joinLabels : List String → String
  | [] => ""
  | [x] => x
  | x :: y :: xs => x ++ "." ++ joinLabels (y :: xs)

/-! ## Kubernetes side (src/app/k8s/client.py, src/app/models.py) -/

/-- A taint as it appears on the raw node object (`spec.taints`). -/
structure RawTaint where
  key : String
  value : Option String
  effect : String
deriving Repr, DecidableEq

/-- One entry of `status.addresses`. -/
structure RawAddress where
  type : String
  address : String
deriving Repr, DecidableEq

/-- One entry of `status.conditions`. -/
structure RawCondition where
  type : String
  status : String
deriving Repr, DecidableEq

/-- The raw Kubernetes node object, restricted to the fields
`_extract_node_info` reads (`metadata.creation_timestamp` is omitted:
wall clock, never branched on). -/
structure RawNode where
  name : String
  addresses : List RawAddress
  annots : List (String × String)
  labels : List (String × String)
  taints : List RawTaint
  conditions : List RawCondition
deriving Repr, DecidableEq

/-- models.TaintInfo. -/
structure TaintInfo where
  key : String
  value : String
  effect : String
deriving Repr, DecidableEq

/-- models.NodeInfo (creation_timestamp omitted: wall clock). -/
structure NodeInfo where
  name : String
  externalIP : Option String
  taints : List TaintInfo
  deletionTaints : List TaintInfo
  labels : List (String × String)
  annots : List (String × String)
  ready : Bool
deriving Repr, DecidableEq

/-- KubernetesClient._extract_node_info (k8s/client.py lines 79-153):
external IP from the first `ExternalIP` address with a Flannel-annotation
fallback when that is falsy; taints with `or ""` on the value; the
deletion-taint list cleared unless every configured key is present
(`len(present) < len(required)` on Python sets, modelled with `dedup`);
ready from the `Ready` condition. -/
def extractNodeInfo (deletionKeys : List String) (node : RawNode) : NodeInfo :=
  let fromAddr : Option String :=
    (node.addresses.find? (fun a => a.type == "ExternalIP")).map RawAddress.address
  let externalIP : Option String :=
    if truthy? fromAddr then fromAddr
    else
      match dictGet? node.annots "flannel.alpha.coreos.com/public-ip" with
      | some v => if v ≠ "" then some v else fromAddr
      | none => fromAddr
  let taints : List TaintInfo := node.taints.map (fun t => ⟨t.key, t.value.getD "", t.effect⟩)
  let dts := taints.filter (fun t => memS t.key deletionKeys)
  let presentCard := ((dts.map TaintInfo.key).dedup).length
  let requiredCard := (deletionKeys.dedup).length
  let deletionTaints := if presentCard < requiredCard then [] else dts
  let ready :=
    match node.conditions.find? (fun c => c.type == "Ready") with
    | some c => c.status == "True"
    | none => false
  { name := node.name, externalIP := externalIP, taints := taints,
    deletionTaints := deletionTaints, labels := node.labels,
    annots := node.annots, ready := ready }

/-! ## Intents (src/app/models.py ServiceDNSConfig, k8s listing) -/

/-- A Kubernetes service restricted to what the intent listing reads. -/
structure Service where
  name : String
  ns : String
  annots : List (String × String)
deriving Repr, DecidableEq

/-- models.ServiceDNSConfig. -/
structure ServiceDNSConfig where
  serviceName : String
  serviceNamespace : String
  hostname : String
  ttl : Int := 300
  proxied : Bool := false
  enabled : Bool := true
deriving Repr, DecidableEq

/-- ServiceDNSConfig.from_service_annotations (models.py lines 55-79).
`int()` on a malformed TTL annotation raises `ValueError`, modelled as the
`Except.error` case (CPython message apostrophes dropped). -/
def fromServiceAnnotations (name ns : String) (annots : List (String × String)) :
    Except String (Option ServiceDNSConfig) :=
  if pyLower ((dictGet? annots "epictetus.io/dns-enabled").getD "false") ≠ "true" then
    .ok none
  else
    match dictGet? annots "epictetus.io/hostname" with
    | none => .ok none
    | some h =>
      if h = "" then .ok none
      else
        let ttlStr := (dictGet? annots "epictetus.io/ttl").getD "300"
        match pyInt? ttlStr with
        | none => .error ("invalid literal for int with base 10: " ++ ttlStr)
        | some t =>
          let proxied := pyLower ((dictGet? annots "epictetus.io/proxied").getD "false") == "true"
          .ok (some ⟨name, ns, h, t, proxied, true⟩)

/-- KubernetesClient.get_services_with_dns_annotations (k8s/client.py lines
253-287): services with falsy annotations are skipped; a `ValueError` from
`from_service_annotations` propagates and fails the whole listing. -/
def getServicesWithDNSAnnotations : List Service → Except String (List ServiceDNSConfig)
  | [] => .ok []
  | s :: ss =>
      if s.annots.isEmpty then getServicesWithDNSAnnotations ss
      else
        match fromServiceAnnotations s.name s.ns s.annots with
        | .error e => .error e
        | .ok none => getServicesWithDNSAnnotations ss
        | .ok (some c) => (getServicesWithDNSAnnotations ss).map (fun cs => c :: cs)

/-- The intent listing as the manager sees it: a failed service list from the
API or a `ValueError` inside the loop both surface as one error. -/
def listIntents (svcListing : Except String (List Service)) :
    Except String (List ServiceDNSConfig) :=
  match svcListing with
  | .error e => .error e
  | .ok svcs => getServicesWithDNSAnnotations svcs

/-! ## CloudFlare provider (src/app/cloudflare/client.py) -/

/-- A provider-side DNS record.  `created_on`/`modified_on` (wall clock) and
the log-only `zone_name` reverse lookup are omitted; neither is branched on. -/
structure CFRecord where
  id : Nat
  name : String
  rtype : String
  content : String
  ttl : Int
  proxied : Bool
  zoneId : String
deriving Repr, DecidableEq

/-- CloudFlareClient state plus the provider record store it manipulates.
`nextId` models the server assigning fresh record ids. -/
structure CFState where
  zonesCache : List (String × String)
  hostnameToZone : List (String × String)
  records : List CFRecord
  nextId : Nat
deriving Repr, DecidableEq

/-- The candidate domains for a hostname, `'.'.join(parts[i:])` for each `i`
(cloudflare/client.py lines 70-74), longest first. -/
def domainsOfParts : List String → List String
  | [] => []
  | p :: ps => joinLabels (p :: ps) :: domainsOfParts ps

/-- Candidate domains of a hostname, from its dot-separated labels. -/
def hostnameDomains (h : String) : List String :=
  domainsOfParts ((splitOnChar '.' h.data).map String.mk)

/-- The `for i in range(len(parts))` loop body: first domain present in the
zone cache wins. -/
def findZoneDomain (zc : List (String × String)) : List String → Option (String × String)
  | [] => none
  | d :: ds =>
      match dictGet? zc d with
      | some z => some (d, z)
      | none => findZoneDomain zc ds

/-- CloudFlareClient._get_zone_for_hostname (lines 63-86): hostname cache
first; otherwise scan suffixes and cache a hit.  Misses are not cached. -/
def getZoneForHostname (st : CFState) (h : String) : Option String × CFState :=
  match dictGet? st.hostnameToZone h with
  | some z => (some z, st)
  | none =>
      match findZoneDomain st.zonesCache (hostnameDomains h) with
      | some (_, z) => (some z, { st with hostnameToZone := st.hostnameToZone ++ [(h, z)] })
      | none => (none, st)

/-- The zone id a hostname resolves to in a state (result component only). -/
def resolveRes (st : CFState) (h : String) : Option String :=
  (getZoneForHostname st h).1

/-- The record filter used by `get_dns_records`: same zone, exact name, type A. -/
def matchesA (z h : String) (r : CFRecord) : Bool :=
  r.zoneId = z && r.name = h && r.rtype = "A"

/-- CloudFlareClient.get_dns_records (lines 89-135): resolve the zone (raise
`ValueError` when none) and list the A records for the exact name. -/
def getDnsRecords (st : CFState) (h : String) :
    Except String (List CFRecord × CFState) :=
  match getZoneForHostname st h with
  | (none, _) => .error ("No CloudFlare zone found for hostname: " ++ h)
  | (some z, st') => .ok (st'.records.filter (matchesA z h), st')

/-- CloudFlareClient.create_dns_record (lines 137-189): resolve the zone and
post a new A record; the server assigns the next fresh id. -/
def createDnsRecord (st : CFState) (h ip : String) (ttl : Int) (proxied : Bool) :
    Except String (CFRecord × CFState) :=
  match getZoneForHostname st h with
  | (none, _) => .error ("No CloudFlare zone found for hostname: " ++ h)
  | (some z, st') =>
      let r : CFRecord := ⟨st'.nextId, h, "A", ip, ttl, proxied, z⟩
      .ok (r, { st' with records := st'.records ++ [r], nextId := st'.nextId + 1 })

/-- CloudFlareClient.delete_dns_record (lines 191-207): delete by record id
inside a zone (the transport itself is modelled as succeeding). -/
def deleteDnsRecord (st : CFState) (rid : Nat) (zid : String) : CFState :=
  { st with records := st.records.filter (fun r => !(r.id = rid && r.zoneId = zid)) }

/-- Result dict of `sync_dns_records_for_hostname`; `errorMsg` is the extra
`error` key added by the per-config exception handler of
`sync_dns_records_for_service_configs` (the log-only `service` key is
omitted). -/
structure HostSyncResult where
  success : Bool
  recordsDeleted : Nat
  recordsKept : Nat
  errors : List String
  errorMsg : Option String := none
deriving Repr, DecidableEq

/-- The record loop of `sync_dns_records_for_hostname` (lines 273-288):
delete every fetched record whose content is not a valid IP, count the rest.
Deletes are transport-successful, so the per-record error list stays empty. -/
def syncDeleteLoop (validIPs : List String) : List CFRecord → CFState → CFState × Nat × Nat
  | [], st => (st, 0, 0)
  | r :: rs, st =>
      if memS r.content validIPs then
        let res := syncDeleteLoop validIPs rs st
        (res.1, res.2.1, res.2.2 + 1)
      else
        let res := syncDeleteLoop validIPs rs (deleteDnsRecord st r.id r.zoneId)
        (res.1, res.2.1 + 1, res.2.2)

/-- CloudFlareClient.sync_dns_records_for_hostname (lines 262-306). -/
def syncDnsRecordsForHostname (st : CFState) (h : String) (validIPs : List String) :
    Except String (HostSyncResult × CFState) :=
  match getDnsRecords st h with
  | .error e => .error e
  | .ok (recs, st1) =>
      let (st2, d, k) := syncDeleteLoop validIPs recs st1
      .ok ({ success := true, recordsDeleted := d, recordsKept := k, errors := [] }, st2)

/-- CloudFlareClient.create_dns_record_from_service_config (lines 373-412):
return an existing record with that content, else create one with the
config's ttl and proxied flag. -/
def createDnsRecordFromServiceConfig (st : CFState) (c : ServiceDNSConfig) (ip : String) :
    Except String (CFRecord × CFState) :=
  match getDnsRecords st c.hostname with
  | .error e => .error e
  | .ok (recs, st1) =>
      match recs.find? (fun r => r.content == ip) with
      | some r => .ok (r, st1)
      | none => createDnsRecord st1 c.hostname ip c.ttl c.proxied

/-- CloudFlareClient.sync_dns_records_for_service_configs (lines 414-437):
per config, sync its hostname; an exception becomes a failure entry; results
keyed by hostname with Python-dict overwrite semantics. -/
def syncForConfigsLoop (validIPs : List String) :
    List ServiceDNSConfig → List (String × HostSyncResult) → CFState →
    List (String × HostSyncResult) × CFState
  | [], acc, st => (acc, st)
  | c :: cs, acc, st =>
      match syncDnsRecordsForHostname st c.hostname validIPs with
      | .ok (res, st') => syncForConfigsLoop validIPs cs (dictInsert acc c.hostname res) st'
      | .error e =>
          syncForConfigsLoop validIPs cs
            (dictInsert acc c.hostname
              { success := false, recordsDeleted := 0, recordsKept := 0,
                errors := [], errorMsg := some e }) st

/-- The per-ip creation loop of perform_full_sync (dns_manager.py lines
311-329); a failing create is recorded and the loop continues. -/
def createIPsLoop (c : ServiceDNSConfig) : List String → CFState → CFState × Nat × List String
  | [], st => (st, 0, [])
  | ip :: ips, st =>
      match createDnsRecordFromServiceConfig st c ip with
      | .ok (_, st') =>
          let res := createIPsLoop c ips st'
          (res.1, res.2.1 + 1, res.2.2)
      | .error e =>
          let res := createIPsLoop c ips st
          (res.1, res.2.1,
            ("Failed to create DNS record for " ++ c.hostname ++ " -> " ++ ip ++ ": " ++ e) :: res.2.2)

/-- The per-config body of the creation phase (dns_manager.py lines 301-336):
list the current records, then create each healthy IP that is missing.
Python iterates `set(healthy_ips) - current_ips` in unspecified order; the
model fixes the order as deduplicated list order (only order, not content,
is unspecified in the source). -/
def createMissingForConfig (healthyIPs : List String) (c : ServiceDNSConfig) (st : CFState) :
    CFState × Nat × List String :=
  match getDnsRecords st c.hostname with
  | .error e => (st, 0, ["Failed to check/create records for " ++ c.hostname ++ ": " ++ e])
  | .ok (current, st1) =>
      let currentIPs := current.map CFRecord.content
      let missing := (healthyIPs.dedup).filter (fun ip => !memS ip currentIPs)
      createIPsLoop c missing st1

/-- The creation phase over all service configs. -/
def createMissingLoop (healthyIPs : List String) :
    List ServiceDNSConfig → CFState → CFState × Nat × List String
  | [], st => (st, 0, [])
  | c :: cs, st =>
      let res1 := createMissingForConfig healthyIPs c st
      let res2 := createMissingLoop healthyIPs cs res1.1
      (res2.1, res1.2.1 + res2.2.1, res1.2.2 ++ res2.2.2)

/-- CloudFlareClient.get_all_dns_records_for_hostnames (lines 332-348):
skip hostnames that strip to empty, fetch the rest, map failures to `[]`. -/
def getAllLoop : List String → List (String × List CFRecord) → CFState →
    List (String × List CFRecord) × CFState
  | [], acc, st => (acc, st)
  | h :: hs, acc, st =>
      if String.mk (pyStrip h.data) = "" then getAllLoop hs acc st
      else
        match getDnsRecords st (String.mk (pyStrip h.data)) with
        | .ok (recs, st') => getAllLoop hs (dictInsert acc h recs) st'
        | .error _ => getAllLoop hs (dictInsert acc h []) st

/-- CloudFlareClient._refresh_zones_cache (lines 50-61): replace the zone
cache from the zones listing.  The hostname cache is not touched. -/
def refreshZonesCache (st : CFState) (zones : List (String × String)) : CFState :=
  { st with zonesCache := zones }

/-- CloudFlareClient.health_check (lines 350-371): refresh the zone cache,
then healthy iff any zone is visible. -/
def cfHealthCheck (st : CFState) (zones : List (String × String)) : CFState × Bool :=
  let st' := refreshZonesCache st zones
  (st', !st'.zonesCache.isEmpty)

/-- The deletion loop of `delete_dns_records_by_ip` (lines 218-225). -/
def delByIpLoop : List CFRecord → CFState → CFState × List Nat
  | [], st => (st, [])
  | r :: rs, st =>
      let st' := deleteDnsRecord st r.id r.zoneId
      let (st'', ids) := delByIpLoop rs st'
      (st'', r.id :: ids)

/-- CloudFlareClient.delete_dns_records_by_ip (lines 209-236). -/
def deleteDnsRecordsByIp (st : CFState) (h ip : String) :
    Except String (List Nat × CFState) :=
  match getDnsRecords st h with
  | .error e => .error e
  | .ok (recs, st1) =>
      let (st2, ids) := delByIpLoop (recs.filter (fun r => r.content == ip)) st1
      .ok (ids, st2)

/-! ## DNS manager (src/app/services/dns_manager.py) -/

/-- models.SyncReport (timestamp and duration_seconds omitted: wall clock). -/
structure SyncReport where
  nodesChecked : Nat
  nodesWithDeletionTaints : Nat
  servicesChecked : Nat
  dnsConfigsFound : Nat
  dnsRecordsFound : Nat
  dnsRecordsCreated : Nat
  dnsRecordsDeleted : Nat
  errors : List String
deriving Repr, DecidableEq

/-- models.DNSManagementEvent (timestamp and the free-form metadata dict
omitted: wall clock / log-only). -/
structure DMEvent where
  eventId : String
  eventType : String
  nodeName : Option String
  nodeIp : Option String
  serviceConfigs : List ServiceDNSConfig
  dnsRecords : List CFRecord
  success : Bool
  errorMessage : Option String
deriving Repr, DecidableEq

/-- The DNSManager state (last_sync_time omitted: wall clock, and the line
assigning it, dns_manager.py line 369, is unreachable — see
`performFullSync`). -/
structure MgrState where
  cf : CFState
  serviceConfigsCache : List ServiceDNSConfig
  syncReports : List SyncReport
  events : List DMEvent
deriving Repr, DecidableEq

/-- The external environment one reconcile observes: the configured deletion
taint keys and the outcomes of the two Kubernetes listings. -/
structure Env where
  deletionTaints : List String
  services : Except String (List Service)
  nodes : Except String (List RawNode)

/-- DNSManager._refresh_service_configs (lines 63-88): install a successful
listing; keep the existing cache when the listing raised. -/
def refreshServiceConfigs (listing : Except String (List ServiceDNSConfig))
    (st : MgrState) : MgrState :=
  match listing with
  | .ok cfgs => { st with serviceConfigsCache := cfgs }
  | .error _ => st

/-- The event-log cap of `_record_event` (lines 427-429): keep the last 1000. -/
def trimEvents (es : List DMEvent) : List DMEvent :=
  if es.length > 1000 then es.drop (es.length - 1000) else es

/-- DNSManager._record_event (lines 407-434). -/
def recordEvent (st : MgrState) (e : DMEvent) : MgrState :=
  { st with events := trimEvents (st.events ++ [e]) }

/-- The per-config creation loop of `_handle_node_added` (lines 144-157);
failures are caught per config. -/
def addLoop (ip : String) : List ServiceDNSConfig → CFState → CFState × List CFRecord
  | [], cf => (cf, [])
  | c :: cs, cf =>
      match createDnsRecordFromServiceConfig cf c ip with
      | .ok (r, cf') =>
          let (cf'', rs) := addLoop ip cs cf'
          (cf'', r :: rs)
      | .error _ => addLoop ip cs cf

/-- DNSManager._handle_node_added (lines 127-168).  A node without an IP or
with the full deletion-taint set returns without recording anything. -/
def handleNodeAdded (env : Env) (eid : String) (ni : NodeInfo) (st : MgrState) : MgrState :=
  if !truthy? ni.externalIP then st
  else if !ni.deletionTaints.isEmpty then st
  else
    let st1 := refreshServiceConfigs (listIntents env.services) st
    let (cf', created) := addLoop (ni.externalIP.getD "") st1.serviceConfigsCache st1.cf
    recordEvent { st1 with cf := cf' }
      { eventId := eid, eventType := "node_added", nodeName := some ni.name,
        nodeIp := ni.externalIP, serviceConfigs := st1.serviceConfigsCache,
        dnsRecords := created, success := true, errorMessage := none }

/-- The per-config deletion loop shared by `_handle_node_modified` and
`_handle_node_deleted`; failures are caught per config. -/
def removeLoop (ip : String) : List ServiceDNSConfig → CFState → CFState × List Nat
  | [], cf => (cf, [])
  | c :: cs, cf =>
      match deleteDnsRecordsByIp cf c.hostname ip with
      | .ok (ids, cf') =>
          let (cf'', ids') := removeLoop ip cs cf'
          (cf'', ids ++ ids')
      | .error _ => removeLoop ip cs cf

/-- DNSManager._handle_node_modified (lines 170-206): only a node that now
carries the full deletion-taint set triggers deletions and an event. -/
def handleNodeModified (env : Env) (eid : String) (ni : NodeInfo) (st : MgrState) : MgrState :=
  if !truthy? ni.externalIP then st
  else if ni.deletionTaints.isEmpty then st
  else
    let st1 := refreshServiceConfigs (listIntents env.services) st
    let (cf', _) := removeLoop (ni.externalIP.getD "") st1.serviceConfigsCache st1.cf
    recordEvent { st1 with cf := cf' }
      { eventId := eid, eventType := "node_modified_all_deletion_taints",
        nodeName := some ni.name, nodeIp := ni.externalIP,
        serviceConfigs := st1.serviceConfigsCache, dnsRecords := [],
        success := true, errorMessage := none }

/-- DNSManager._handle_node_deleted (lines 208-239). -/
def handleNodeDeleted (env : Env) (eid : String) (ni : NodeInfo) (st : MgrState) : MgrState :=
  if !truthy? ni.externalIP then st
  else
    let st1 := refreshServiceConfigs (listIntents env.services) st
    let (cf', _) := removeLoop (ni.externalIP.getD "") st1.serviceConfigsCache st1.cf
    recordEvent { st1 with cf := cf' }
      { eventId := eid, eventType := "node_deleted", nodeName := some ni.name,
        nodeIp := ni.externalIP, serviceConfigs := st1.serviceConfigsCache,
        dnsRecords := [], success := true, errorMessage := none }

/-- DNSManager._handle_node_event (lines 90-125).  The three handlers are
total in the model (every provider failure is caught inside their loops), so
the outer `except` branch that records a `node_*_failed` event is
unreachable here. -/
def handleNodeEvent (env : Env) (eid : String) (etype : String) (ni : NodeInfo)
    (st : MgrState) : MgrState :=
  if etype = "ADDED" then handleNodeAdded env eid ni st
  else if etype = "MODIFIED" then handleNodeModified env eid ni st
  else if etype = "DELETED" then handleNodeDeleted env eid ni st
  else st

/-- The node filter of perform_full_sync line 261:
`not node.deletion_taints and node.external_ip`. -/
def healthyNodeFilter (n : NodeInfo) : Bool :=
  n.deletionTaints.isEmpty && truthy? n.externalIP

/-- The exception-branch report of perform_full_sync (lines 391-402). -/
def failReport (msg : String) : SyncReport :=
  { nodesChecked := 0, nodesWithDeletionTaints := 0, servicesChecked := 0,
    dnsConfigsFound := 0, dnsRecordsFound := 0, dnsRecordsCreated := 0,
    dnsRecordsDeleted := 0, errors := [msg] }

/-- The NameError text raised at dns_manager.py line 357 (apostrophes of the
CPython message dropped). -/
def nameErrorMsg : String := "name nodes_with_all_deletion_taints is not defined"

/-- What one perform_full_sync call produced: the new state, the report the
call returned, and the number of provider record creations/deletions it
actually performed (the locals `total_created` at line 317 and
`total_deleted` at line 339; both are 0 when the node listing raised before
any provider write). -/
structure FullSyncOutcome where
  st : MgrState
  report : SyncReport
  opsCreated : Nat
  opsDeleted : Nat
deriving Repr

/-- DNSManager.perform_full_sync (lines 241-405).  Control flow of the try
block: refresh configs; list nodes (a failure jumps to the except branch);
deletion phase (`sync_dns_records_for_service_configs`); creation phase;
total bookkeeping; final record inventory; then the construction of the
success report raises `NameError` (line 357 reads the never-assigned local
`nodes_with_all_deletion_taints`), so every call ends in the except branch,
which appends the failure report WITHOUT the 100-report trim of lines
372-373 (the trim is only in the unreachable success path).
`fullSyncMutations` is the provider-mutating body of the try block (lines
292-350): the deletion phase over all configs, the creation phase over all
configs, the deletion total of line 339, and the final record inventory of
lines 347-350; it returns (final provider state, total_created,
total_deleted). -/
def fullSyncMutations (healthyIPs : List String) (cfgs : List ServiceDNSConfig)
    (cf : CFState) : CFState × Nat × Nat :=
  let resSync := syncForConfigsLoop healthyIPs cfgs [] cf
  let resCreate := createMissingLoop healthyIPs cfgs resSync.2
  let totalDeleted := (resSync.1.map (fun p => p.2.recordsDeleted)).sum
  let resAll := getAllLoop (cfgs.map ServiceDNSConfig.hostname) [] resCreate.1
  (resAll.2, resCreate.2.1, totalDeleted)

/-- DNSManager.perform_full_sync, assembled from the pieces above. -/
def performFullSync (env : Env) (st : MgrState) : FullSyncOutcome :=
  let st0 := refreshServiceConfigs (listIntents env.services) st
  match env.nodes with
  | .error e =>
      let report := failReport ("Full sync failed: " ++ e)
      { st := { st0 with syncReports := st0.syncReports ++ [report] },
        report := report, opsCreated := 0, opsDeleted := 0 }
  | .ok rawNodes =>
      let allNodes := rawNodes.map (extractNodeInfo env.deletionTaints)
      let healthyIPs := (allNodes.filter healthyNodeFilter).map (fun n => n.externalIP.getD "")
      let muts := fullSyncMutations healthyIPs st0.serviceConfigsCache st0.cf
      -- line 357: NameError; the success report (with the aggregated error
      -- list of lines 341-345) is never built
      let report := failReport ("Full sync failed: " ++ nameErrorMsg)
      { st := { st0 with cf := muts.1, syncReports := st0.syncReports ++ [report] },
        report := report, opsCreated := muts.2.1, opsDeleted := muts.2.2 }

/-! ## Node watch loop (src/app/k8s/client.py lines 183-251) -/

/-- A registered node-event callback: it may mutate the manager state and may
raise (the second component carries the raised message; Python keeps the
side effects made before the raise, so the state component is returned in
both cases). -/
def Callback : Type :=
  String → NodeInfo → MgrState → MgrState × Option String

/-- The callback dispatch loop of `_watch_nodes` (lines 211-217): each
callback runs under its own try/except, whose error is logged and dropped.
The second component counts the callbacks that were invoked. -/
def dispatchCallbacks : List Callback → String → NodeInfo → MgrState → MgrState × Nat
  | [], _, _, st => (st, 0)
  | cb :: cbs, et, ni, st =>
      let st1 := (cb et ni st).1
      let (st2, n) := dispatchCallbacks cbs et ni st1
      (st2, n + 1)

/-- KubernetesClient._should_trigger_callback (lines 231-251). -/
def shouldTriggerCallback (etype : String) (old : Option NodeInfo) (nw : NodeInfo) : Bool :=
  if etype = "ADDED" && !nw.deletionTaints.isEmpty then true
  else if etype = "MODIFIED"
      && (old.map (fun o => o.deletionTaints.isEmpty)).getD false
      && !nw.deletionTaints.isEmpty then true
  else if etype = "DELETED" && (old.map (fun o => !o.deletionTaints.isEmpty)).getD false then
    true
  else false

/-- The watch-side state: the node cache owned by the Kubernetes client plus
the manager state the callbacks act on. -/
structure WatchState where
  nodeCache : List (String × NodeInfo)
  mgr : MgrState

/-- One iteration of the event loop of `_watch_nodes` (lines 191-217):
extract, read the old cache entry, update the cache, then dispatch the
callbacks when the event is relevant.  Returns the number of callbacks
invoked. -/
def watchStep (dk : List String) (cbs : List Callback) (ev : String × RawNode)
    (ws : WatchState) : WatchState × Nat :=
  let ni := extractNodeInfo dk ev.2
  let old := dictGet? ws.nodeCache ni.name
  let cache' := dictInsert ws.nodeCache ni.name ni
  if shouldTriggerCallback ev.1 old ni then
    let (mgr', n) := dispatchCallbacks cbs ev.1 ni ws.mgr
    ({ nodeCache := cache', mgr := mgr' }, n)
  else
    ({ nodeCache := cache', mgr := ws.mgr }, 0)

/-- The stream loop: process the events one after the other. -/
def processEvents (dk : List String) (cbs : List Callback) :
    List (String × RawNode) → WatchState → WatchState
  | [], ws => ws
  | e :: es, ws => processEvents dk cbs es (watchStep dk cbs e ws).1

/-- The one callback the manager registers (dns_manager.py line 36); the
uuid event id is opaque and modelled as `""`. -/
def realCallback (env : Env) : Callback :=
  fun etype ni st => (handleNodeEvent env "" etype ni st, none)

/-! ## Concrete instances used by the evaluations, counterexamples and
witnesses -/

/-- The default configured deletion-taint keys (config). -/
def dkStd : List String :=
  ["DeletionCandidateOfClusterAutoscaler", "ToBeDeletedByClusterAutoscaler"]

/-- Scenario node n1: external IP 10.0.0.1, no taints. -/
def raw1 : RawNode := ⟨"n1", [⟨"ExternalIP", "10.0.0.1"⟩], [], [], [], [⟨"Ready", "True"⟩]⟩

/-- Scenario node n2: external IP 10.0.0.2, no taints. -/
def raw2 : RawNode := ⟨"n2", [⟨"ExternalIP", "10.0.0.2"⟩], [], [], [], [⟨"Ready", "True"⟩]⟩

/-- Scenario service: one enabled intent for api.example.com, ttl 120,
proxied defaulting to false. -/
def svcA : Service :=
  ⟨"web", "a",
    [("epictetus.io/dns-enabled", "true"), ("epictetus.io/hostname", "api.example.com"),
     ("epictetus.io/ttl", "120")]⟩

/-- The C1 environment: two healthy nodes, one enabled intent. -/
def envC1 : Env := ⟨dkStd, .ok [svcA], .ok [raw1, raw2]⟩

/-- The C1 starting state: zone example.com cached as Z1, no records, empty
manager state. -/
def stC1 : MgrState :=
  { cf := { zonesCache := [("example.com", "Z1")], hostnameToZone := [], records := [],
            nextId := 0 },
    serviceConfigsCache := [], syncReports := [], events := [] }

/-- A manager state whose report log is already at the 100-report cap. -/
def stC3 : MgrState :=
  { cf := ⟨[], [], [], 0⟩, serviceConfigsCache := [],
    syncReports := List.replicate 100 (failReport "earlier"), events := [] }

/-- A trivial environment (empty cluster) for the C3 evaluation. -/
def envC3 : Env := ⟨[], .ok [], .ok []⟩

/-- A service whose TTL annotation is not an integer string. -/
def svcBad : Service :=
  ⟨"bad", "a",
    [("epictetus.io/dns-enabled", "true"), ("epictetus.io/hostname", "b.example.com"),
     ("epictetus.io/ttl", "abc")]⟩

/-- An intent cached from an earlier reconcile, for hostname
old.example.com. -/
def cfgOld : ServiceDNSConfig := ⟨"oldsvc", "a", "old.example.com", 300, false, true⟩

/-- The C7 environment: the service listing fails this sweep. -/
def envC7 : Env := ⟨dkStd, .error "connection refused", .ok []⟩

/-- The C7 state: a stale record under the cached intent's hostname. -/
def stC7 : MgrState :=
  { cf := { zonesCache := [("example.com", "Z1")], hostnameToZone := [], records :=
      [⟨7, "old.example.com", "A", "9.9.9.9", 300, false, "Z1"⟩], nextId := 8 },
    serviceConfigsCache := [cfgOld], syncReports := [], events := [] }

/-- Zone cache for the C8 witness: `com` and `example.com` are both zones. -/
def stC8w : CFState :=
  { zonesCache := [("com", "Z0"), ("example.com", "Z1")], hostnameToZone := [],
    records := [], nextId := 0 }

/-- The C9 state: the hostname cache holds an entry derived from the old
zone cache. -/
def stC9 : CFState :=
  { zonesCache := [("example.com", "Z1")], hostnameToZone := [("api.example.com", "Z1")],
    records := [], nextId := 0 }

/-- Watch state for the C5 counterexample: empty node cache, empty manager. -/
def wsC5 : WatchState := ⟨[], stC1⟩

/-- A deletion-taint configuration with a single key, for the C10 witness. -/
def dkOne : List String := ["ToBeDeletedByClusterAutoscaler"]

/-- A raw node carrying the full (one-key) deletion-taint set, so that its
Added event is dispatched. -/
def rawT : RawNode :=
  ⟨"nt", [⟨"ExternalIP", "10.0.0.9"⟩], [], [],
    [⟨"ToBeDeletedByClusterAutoscaler", some "", "NoSchedule"⟩], [⟨"Ready", "True"⟩]⟩

/-- A callback that always raises, for the C10 witness. -/
def raisingCb : Callback := fun _ _ st => (st, some "boom")

/-- A node carrying only one of the two configured deletion-taint keys, for
the C4 witness. -/
def rawHalf : RawNode :=
  ⟨"nh", [⟨"ExternalIP", "10.0.0.5"⟩], [], [],
    [⟨"DeletionCandidateOfClusterAutoscaler", some "", "NoSchedule"⟩], [⟨"Ready", "True"⟩]⟩

/-- A callback that appends a marker event and returns normally, for the C10
witness. -/
def markerCb : Callback :=
  fun _ _ st =>
    (recordEvent st
      { eventId := "m", eventType := "marker", nodeName := none, nodeIp := none,
        serviceConfigs := [], dnsRecords := [], success := true, errorMessage := none },
     none)

/-- A service whose annotations make `from_service_annotations` reach the
`int()` call and fail there: annotations present, dns-enabled true, a
non-empty hostname, and a TTL annotation `int()` rejects. -/
def malformedTTL (s : Service) : Prop :=
  s.annots.isEmpty = false ∧
  pyLower ((dictGet? s.annots "epictetus.io/dns-enabled").getD "false") = "true" ∧
  ((dictGet? s.annots "epictetus.io/hostname").getD "") ≠ "" ∧
  pyInt? ((dictGet? s.annots "epictetus.io/ttl").getD "300") = none

instance (s : Service) : Decidable (malformedTTL s) := by
  unfold malformedTTL; infer_instance

/-! ### Idempotence machinery for C2

`cacheStable st st'` says a provider operation left the zone cache unchanged
and kept every hostname resolving to the same zone id; `goodHost` says every
A record a hostname owns carries a valid IP; `fullHost` says every valid IP
has an A record under the hostname.  One full sweep establishes both for all
config hostnames, and both make the next sweep a no-op. -/

def cacheStable (st st' : CFState) : Prop :=
  st'.zonesCache = st.zonesCache ∧ ∀ h, resolveRes st' h = resolveRes st h

/-- Every record a hostname owns (in its resolved zone) carries a valid IP. -/
def goodHost (ips : List String) (st : CFState) (h : String) : Prop :=
  ∀ z, resolveRes st h = some z →
    ∀ r ∈ st.records, matchesA z h r = true → memS r.content ips = true

/-- Every valid IP has a record under the hostname (in its resolved zone). -/
def fullHost (ips : List String) (st : CFState) (h : String) : Prop :=
  ∀ z, resolveRes st h = some z →
    ∀ ip ∈ ips, ∃ r, r ∈ st.records ∧ matchesA z h r = true ∧ r.content = ip

/-- The healthy-IP list a sweep computes from the node listing
(perform_full_sync lines 261-262). -/
def healthyIPsOf (env : Env) (rawNodes : List RawNode) : List String :=
  ((rawNodes.map (extractNodeInfo env.deletionTaints)).filter healthyNodeFilter).map
    (fun n => n.externalIP.getD "")

/-! ## Theorems -/

/-- C1: the scenario of one enabled intent (api.example.com, ttl 120,
proxied false), two healthy nodes 10.0.0.1 / 10.0.0.2, zone example.com and
no records.  The sweep does create exactly the two expected A records on the
provider (opsCreated = 2, opsDeleted = 0), but the returned report is NOT
the claimed `created=2, deleted=0, errors=[]`: constructing the success
report raises NameError (undefined local at dns_manager.py line 357), so the
call returns the exception-branch report with created=0 and one error. -/
theorem C1_name_error_evaluation :
    (performFullSync envC1 stC1).st.cf.records =
      [⟨0, "api.example.com", "A", "10.0.0.1", 120, false, "Z1"⟩,
       ⟨1, "api.example.com", "A", "10.0.0.2", 120, false, "Z1"⟩] ∧
    (performFullSync envC1 stC1).opsCreated = 2 ∧
    (performFullSync envC1 stC1).opsDeleted = 0 ∧
    (performFullSync envC1 stC1).report = failReport ("Full sync failed: " ++ nameErrorMsg) ∧
    (performFullSync envC1 stC1).report.dnsRecordsCreated = 0 ∧
    (performFullSync envC1 stC1).report.errors ≠ [] := by
  refine ⟨by decide, by decide, by decide, by decide, by decide, by decide⟩

/-- C3: with the report log already at its cap of 100, one perform_full_sync
call (which always ends in the except branch, see `performFullSync`) appends
an unconditional 101st report: the 100-report cap is not enforced on the
exception path, contradicting the claimed always-bounded invariant. -/
theorem C3_report_cap_overflow :
    stC3.syncReports.length = 100 ∧
    (performFullSync envC3 stC3).st.syncReports.length = 101 := by
  refine ⟨by decide, by decide⟩

/-- C5 counterexample: an Added event for a node with an external IP and no
deletion taints is filtered out by `_should_trigger_callback`, so the watch
loop records NO event at all (the claim says an event of kind NodeAdded is
recorded).  No provider write happens and no callback is invoked. -/
theorem C5_counterexample :
    (watchStep dkStd [realCallback envC1] ("ADDED", raw1) wsC5).1.mgr.events = [] ∧
    (watchStep dkStd [realCallback envC1] ("ADDED", raw1) wsC5).1.mgr.cf.records = [] ∧
    (watchStep dkStd [realCallback envC1] ("ADDED", raw1) wsC5).2 = 0 := by
  refine ⟨by decide, by decide, by decide⟩

/-- C5 (amended): an Added watch event for a node with an external IP and no
deletion taints is not dispatched at all: no callback runs, the manager
state (provider records and event log included) is untouched, and only the
node cache is updated; record creation is left to the periodic sweep. -/
theorem C5_added_event_not_dispatched (dk : List String) (cbs : List Callback)
    (raw : RawNode) (ws : WatchState)
    (hip : truthy? (extractNodeInfo dk raw).externalIP = true)
    (hdt : (extractNodeInfo dk raw).deletionTaints = []) :
    (watchStep dk cbs ("ADDED", raw) ws).1.mgr = ws.mgr ∧
    (watchStep dk cbs ("ADDED", raw) ws).2 = 0 ∧
    (watchStep dk cbs ("ADDED", raw) ws).1.nodeCache =
      dictInsert ws.nodeCache (extractNodeInfo dk raw).name (extractNodeInfo dk raw) := by
  have htr : shouldTriggerCallback "ADDED"
      (dictGet? ws.nodeCache (extractNodeInfo dk raw).name) (extractNodeInfo dk raw) = false := by
    simp [shouldTriggerCallback, hdt]
  simp [watchStep, htr]

/-- C5 witness: the amended theorem applied to node n1 (IP 10.0.0.1, no
taints) with the real registered callback. -/
theorem C5_witness :
    truthy? (extractNodeInfo dkStd raw1).externalIP = true ∧
    (extractNodeInfo dkStd raw1).deletionTaints = [] ∧
    (watchStep dkStd [realCallback envC1] ("ADDED", raw1) wsC5).1.mgr = wsC5.mgr :=
  ⟨by decide, by decide,
    (C5_added_event_not_dispatched dkStd [realCallback envC1] raw1 wsC5
      (by decide) (by decide)).1⟩

/-- C6 counterexample: with one well-formed enabled service (svcA) and one
whose TTL annotation is `abc`, the whole listing raises: no intent is
produced at all (the claim says svcA's intent is still produced), and the
reconcile keeps the previous cache. -/
theorem C6_counterexample :
    getServicesWithDNSAnnotations [svcA, svcBad] =
      .error "invalid literal for int with base 10: abc" ∧
    refreshServiceConfigs (listIntents (.ok [svcA, svcBad])) stC1 = stC1 := by
  refine ⟨rfl, rfl⟩

/-- C6 (amended): a malformed TTL annotation on any enabled annotated
service makes the entire service listing raise for that sweep, so no intents
at all are produced from it, and `_refresh_service_configs` keeps the
previously cached intent set. -/
theorem C6_malformed_ttl_aborts_listing (svcs : List Service)
    (h : ∃ s ∈ svcs, malformedTTL s) :
    (∃ m, getServicesWithDNSAnnotations svcs = .error m) ∧
      ∀ (st : MgrState) (m : String), refreshServiceConfigs (.error m) st = st := by
  refine ⟨?_, fun st m => rfl⟩
  induction svcs with
  | nil => obtain ⟨s, hs, -⟩ := h; cases hs
  | cons s ss ih =>
    obtain ⟨t, ht, hprops⟩ := h
    rcases List.mem_cons.mp ht with rfl | htss
    · obtain ⟨hne, hen, hhost, httl⟩ := hprops
      have hfa : fromServiceAnnotations t.name t.ns t.annots =
          .error ("invalid literal for int with base 10: " ++
            ((dictGet? t.annots "epictetus.io/ttl").getD "300")) := by
        cases hlk : dictGet? t.annots "epictetus.io/hostname" with
        | none => rw [hlk] at hhost; simp at hhost
        | some hn =>
          have hn0 : hn ≠ "" := by rw [hlk] at hhost; simpa using hhost
          simp [fromServiceAnnotations, hen, hlk, hn0, httl]
      refine ⟨"invalid literal for int with base 10: " ++
        ((dictGet? t.annots "epictetus.io/ttl").getD "300"), ?_⟩
      simp [getServicesWithDNSAnnotations, hne, hfa]
    · obtain ⟨m, hm⟩ := ih ⟨t, htss, hprops⟩
      by_cases hemp : s.annots.isEmpty
      · exact ⟨m, by simp [getServicesWithDNSAnnotations, hemp, hm]⟩
      · cases hfa : fromServiceAnnotations s.name s.ns s.annots with
        | error e => exact ⟨e, by simp [getServicesWithDNSAnnotations, hemp, hfa]⟩
        | ok oc =>
          cases oc with
          | none => exact ⟨m, by simp [getServicesWithDNSAnnotations, hemp, hfa, hm]⟩
          | some c =>
            exact ⟨m, by simp [getServicesWithDNSAnnotations, hemp, hfa, hm, Except.map]⟩

/-- C6 witness: the amended theorem applied to the listing [svcA, svcBad]. -/
theorem C6_witness :
    (∃ s ∈ [svcA, svcBad], malformedTTL s) ∧
      (∃ m, getServicesWithDNSAnnotations [svcA, svcBad] = .error m) :=
  ⟨by decide, (C6_malformed_ttl_aborts_listing [svcA, svcBad] (by decide)).1⟩

/-- C7 counterexample: the service listing fails this sweep, yet the sweep
still converges the hostname of the intent cached by an earlier reconcile:
it deletes the stale record under old.example.com (one deletion), so the
previously cached intent set does influence the sweep, contradicting the
claim. -/
theorem C7_counterexample :
    envC7.services = .error "connection refused" ∧
    (performFullSync envC7 stC7).opsDeleted = 1 ∧
    (performFullSync envC7 stC7).st.cf.records = [] := by
  refine ⟨rfl, by decide, by decide⟩

/-- C7 (amended): the intent set a sweep operates on is the fresh listing
when that listing succeeds, and the previously cached intent set when the
listing fails; the sweep leaves that refreshed cache in place. -/
theorem C7_sweep_uses_refreshed_or_cached (env : Env) (st : MgrState) :
    (refreshServiceConfigs (listIntents env.services) st).serviceConfigsCache =
      (match listIntents env.services with
        | .ok cfgs => cfgs
        | .error _ => st.serviceConfigsCache) ∧
    (performFullSync env st).st.serviceConfigsCache =
      (refreshServiceConfigs (listIntents env.services) st).serviceConfigsCache := by
  constructor
  · cases h : listIntents env.services <;> simp [refreshServiceConfigs, h]
  · cases hn : env.nodes <;> simp [performFullSync, hn]

/-- C9 counterexample: refreshing the zone cache to a new zone list leaves
the hostname cache entry api.example.com → Z1 in place, although no suffix
of api.example.com is a zone of the refreshed zone cache — the entry is no
longer derivable from the current zone cache, contradicting the claim. -/
theorem C9_counterexample :
    (refreshZonesCache stC9 [("other.io", "Z9")]).hostnameToZone = [("api.example.com", "Z1")] ∧
    resolveRes { refreshZonesCache stC9 [("other.io", "Z9")] with hostnameToZone := [] }
      "api.example.com" = none ∧
    resolveRes (refreshZonesCache stC9 [("other.io", "Z9")]) "api.example.com" = some "Z1" := by
  refine ⟨by decide, by decide, by decide⟩

/-- C9 (amended): refreshing the zone cache — at init and on every health
check — does NOT clear the hostname-to-zone cache; the hostname cache is
left untouched, so its entries can go stale relative to the refreshed zone
cache. -/
theorem C9_refresh_keeps_hostname_cache (st : CFState) (zones : List (String × String)) :
    (refreshZonesCache st zones).hostnameToZone = st.hostnameToZone ∧
      (cfHealthCheck st zones).1.hostnameToZone = st.hostnameToZone :=
  ⟨rfl, rfl⟩

/-- Boolean membership agrees with list membership. -/
theorem memS_iff_mem (a : String) : ∀ (l : List String), (memS a l = true ↔ a ∈ l) := by
  intro l
  induction l with
  | nil => simp [memS]
  | cons b bs ih =>
    rw [memS]
    split
    · rename_i hba; subst hba; simp
    · rename_i hba
      rw [ih]
      constructor
      · exact fun hm => List.mem_cons_of_mem _ hm
      · intro hm
        rcases List.mem_cons.mp hm with rfl | hm2
        · exact absurd rfl hba
        · exact hm2

/-- C4: a node carrying only a proper subset of the configured deletion-taint
keys (some configured key missing from its taints) gets an empty
deletion-taint field from extraction, and the sweep's healthy-node filter
then classifies it by its external IP alone. -/
theorem C4_partial_taints_advertisable (keys : List String) (node : RawNode)
    (h : ∃ k ∈ keys, k ∉ node.taints.map RawTaint.key) :
    (extractNodeInfo keys node).deletionTaints = [] ∧
      healthyNodeFilter (extractNodeInfo keys node) =
        truthy? (extractNodeInfo keys node).externalIP := by
  obtain ⟨k, hk, hknot⟩ := h
  have hPsub : ∀ x ∈ (((node.taints.map
      (fun t => (⟨t.key, t.value.getD "", t.effect⟩ : TaintInfo))).filter
      (fun t => memS t.key keys)).map TaintInfo.key), x ∈ keys := by
    intro x hx
    obtain ⟨t, ht, rfl⟩ := List.mem_map.mp hx
    exact (memS_iff_mem _ _).mp (List.mem_filter.mp ht).2
  have hPtaint : ∀ x ∈ (((node.taints.map
      (fun t => (⟨t.key, t.value.getD "", t.effect⟩ : TaintInfo))).filter
      (fun t => memS t.key keys)).map TaintInfo.key), x ∈ node.taints.map RawTaint.key := by
    intro x hx
    obtain ⟨t, ht, rfl⟩ := List.mem_map.mp hx
    have ht2 := (List.mem_filter.mp ht).1
    obtain ⟨rt, hrt, rfl⟩ := List.mem_map.mp ht2
    exact List.mem_map.mpr ⟨rt, hrt, rfl⟩
  have hcard : (((node.taints.map
      (fun t => (⟨t.key, t.value.getD "", t.effect⟩ : TaintInfo))).filter
      (fun t => memS t.key keys)).map TaintInfo.key).dedup.length < keys.dedup.length := by
    rw [← List.card_toFinset, ← List.card_toFinset]
    apply Finset.card_lt_card
    have hsub : (((node.taints.map
        (fun t => (⟨t.key, t.value.getD "", t.effect⟩ : TaintInfo))).filter
        (fun t => memS t.key keys)).map TaintInfo.key).toFinset ⊆ keys.toFinset := by
      intro x hx
      exact List.mem_toFinset.mpr (hPsub x (List.mem_toFinset.mp hx))
    refine (Finset.ssubset_iff_of_subset hsub).mpr ?_
    exact ⟨k, List.mem_toFinset.mpr hk,
      fun hkP => hknot (hPtaint k (List.mem_toFinset.mp hkP))⟩
  have hdt : (extractNodeInfo keys node).deletionTaints = [] := by
    simp only [extractNodeInfo]
    rw [if_pos hcard]
  exact ⟨hdt, by simp [healthyNodeFilter, hdt]⟩

/-- C4 witness: a node carrying only DeletionCandidateOfClusterAutoscaler
out of the two configured keys. -/
theorem C4_witness :
    (∃ k ∈ dkStd, k ∉ rawHalf.taints.map RawTaint.key) ∧
      ((extractNodeInfo dkStd rawHalf).deletionTaints = [] ∧
        healthyNodeFilter (extractNodeInfo dkStd rawHalf) =
          truthy? (extractNodeInfo dkStd rawHalf).externalIP) :=
  ⟨by decide, C4_partial_taints_advertisable dkStd rawHalf (by decide)⟩

/-- A failed suffix scan means no candidate domain is in the zone cache. -/
theorem findZoneDomain_none_iff (zc : List (String × String)) :
    ∀ ds, findZoneDomain zc ds = none ↔ ∀ d ∈ ds, dictGet? zc d = none := by
  intro ds
  induction ds with
  | nil => simp [findZoneDomain]
  | cons d ds ih =>
    cases hd : dictGet? zc d with
    | some z => simp [findZoneDomain, hd]
    | none => simp [findZoneDomain, hd, ih]

/-- A successful suffix scan returns a cached candidate domain, and — when
the candidate list is sorted by non-increasing length — one of maximal
length among the cached candidates. -/
theorem findZoneDomain_some_spec (zc : List (String × String)) :
    ∀ ds d z, ds.Pairwise (fun a b => b.length ≤ a.length) →
      findZoneDomain zc ds = some (d, z) →
      d ∈ ds ∧ dictGet? zc d = some z ∧
        ∀ d2 ∈ ds, (dictGet? zc d2).isSome = true → d2.length ≤ d.length := by
  intro ds
  induction ds with
  | nil => intro d z _ hf; simp [findZoneDomain] at hf
  | cons d0 ds ih =>
    intro d z hpw hf
    rw [findZoneDomain] at hf
    cases hd0 : dictGet? zc d0 with
    | some z0 =>
      rw [hd0] at hf
      injection hf with hf
      cases hf
      refine ⟨List.mem_cons_self _ _, hd0, ?_⟩
      intro d2 hd2 _
      rcases List.mem_cons.mp hd2 with rfl | hd2t
      · exact le_refl _
      · exact (List.pairwise_cons.mp hpw).1 d2 hd2t
    | none =>
      rw [hd0] at hf
      obtain ⟨hmem, hlk, hmax⟩ := ih d z (List.pairwise_cons.mp hpw).2 hf
      refine ⟨List.mem_cons_of_mem _ hmem, hlk, ?_⟩
      intro d2 hd2 hsome
      rcases List.mem_cons.mp hd2 with rfl | hd2t
      · rw [hd0] at hsome; simp at hsome
      · exact hmax d2 hd2t hsome

/-- Dropping the first label shortens the joined domain. -/
theorem joinLabels_tail_le (p : String) (ps : List String) :
    (joinLabels ps).length ≤ (joinLabels (p :: ps)).length := by
  cases ps with
  | nil =>
    show ("" : String).length ≤ p.length
    simp
  | cons q qs =>
    show (joinLabels (q :: qs)).length ≤ (p ++ "." ++ joinLabels (q :: qs)).length
    rw [String.length_append, String.length_append]
    omega

/-- Every later candidate domain is at most as long as the full join. -/
theorem domainsOfParts_le (ps : List String) :
    ∀ p, ∀ d ∈ domainsOfParts ps, d.length ≤ (joinLabels (p :: ps)).length := by
  induction ps with
  | nil => intro p d hd; simp [domainsOfParts] at hd
  | cons q qs ih =>
    intro p d hd
    rw [domainsOfParts] at hd
    rcases List.mem_cons.mp hd with rfl | hd2
    · exact joinLabels_tail_le p (q :: qs)
    · exact le_trans (ih q d hd2) (joinLabels_tail_le p (q :: qs))

/-- The candidate-domain list is sorted by non-increasing length. -/
theorem domainsOfParts_pairwise (ps : List String) :
    (domainsOfParts ps).Pairwise (fun a b => b.length ≤ a.length) := by
  induction ps with
  | nil => simp [domainsOfParts]
  | cons p ps ih =>
    rw [domainsOfParts]
    exact List.Pairwise.cons (fun d hd => domainsOfParts_le ps p d hd) ih

/-- C8: on a hostname-cache miss, zone resolution scans the candidate
domains `l_i . … . l_n` longest-first over the zone cache: a hit is a cached
suffix of maximal length among the cached candidates, and a miss means no
candidate is cached. -/
theorem C8_longest_suffix_zone (st : CFState) (h : String)
    (hc : dictGet? st.hostnameToZone h = none) :
    (∀ z, resolveRes st h = some z →
        ∃ d ∈ hostnameDomains h, dictGet? st.zonesCache d = some z ∧
          ∀ d2 ∈ hostnameDomains h, (dictGet? st.zonesCache d2).isSome = true →
            d2.length ≤ d.length) ∧
      (resolveRes st h = none ↔ ∀ d ∈ hostnameDomains h, dictGet? st.zonesCache d = none) := by
  have hres : resolveRes st h =
      (findZoneDomain st.zonesCache (hostnameDomains h)).map Prod.snd := by
    cases hf : findZoneDomain st.zonesCache (hostnameDomains h) with
    | some dz =>
      obtain ⟨d, z⟩ := dz
      simp [resolveRes, getZoneForHostname, hc, hf]
    | none => simp [resolveRes, getZoneForHostname, hc, hf]
  constructor
  · intro z hz
    rw [hres] at hz
    cases hf : findZoneDomain st.zonesCache (hostnameDomains h) with
    | none => rw [hf] at hz; simp at hz
    | some dz =>
      obtain ⟨d, z0⟩ := dz
      rw [hf] at hz
      simp only [Option.map_some'] at hz
      injection hz with hz
      subst hz
      obtain ⟨hmem, hlk, hmax⟩ :=
        findZoneDomain_some_spec st.zonesCache (hostnameDomains h) d z0
          (domainsOfParts_pairwise _) hf
      exact ⟨d, hmem, hlk, hmax⟩
  · rw [hres]
    cases hf : findZoneDomain st.zonesCache (hostnameDomains h) with
    | none =>
      simp only [Option.map_none']
      exact ⟨fun _ => (findZoneDomain_none_iff _ _).mp hf, fun _ => trivial⟩
    | some dz =>
      obtain ⟨d, z0⟩ := dz
      obtain ⟨hmem, hlk, -⟩ :=
        findZoneDomain_some_spec st.zonesCache (hostnameDomains h) d z0
          (domainsOfParts_pairwise _) hf
      simp only [Option.map_some']
      constructor
      · intro hc2; cases hc2
      · intro hall
        rw [hall d hmem] at hlk
        cases hlk

/-- C8 witness: a.b.example.com against a zone cache holding `com` and
`example.com`; the resolved zone is Z1 via the longest cached suffix
example.com. -/
theorem C8_witness :
    dictGet? stC8w.hostnameToZone "a.b.example.com" = none ∧
      resolveRes stC8w "a.b.example.com" = some "Z1" ∧
      ∃ d ∈ hostnameDomains "a.b.example.com",
        dictGet? stC8w.zonesCache d = some "Z1" ∧
          ∀ d2 ∈ hostnameDomains "a.b.example.com",
            (dictGet? stC8w.zonesCache d2).isSome = true → d2.length ≤ d.length :=
  ⟨rfl, by decide,
    (C8_longest_suffix_zone stC8w "a.b.example.com" rfl).1 "Z1" (by decide)⟩

/-- The dispatch loop invokes every registered callback. -/
theorem dispatchCallbacks_count (cbs : List Callback) (et : String) (ni : NodeInfo) :
    ∀ st, (dispatchCallbacks cbs et ni st).2 = cbs.length := by
  induction cbs with
  | nil => intro st; rfl
  | cons cb cbs ih => intro st; simp [dispatchCallbacks, ih]

/-- Dispatch over a concatenation runs the first block, then the second on
whatever state the first left behind — raised errors notwithstanding. -/
theorem dispatchCallbacks_append_fst (l₁ l₂ : List Callback) (et : String) (ni : NodeInfo) :
    ∀ st, (dispatchCallbacks (l₁ ++ l₂) et ni st).1 =
      (dispatchCallbacks l₂ et ni (dispatchCallbacks l₁ et ni st).1).1 := by
  induction l₁ with
  | nil => intro st; rfl
  | cons cb l₁ ih => intro st; simp [dispatchCallbacks, ih]

/-- Inserting then reading the same key returns the inserted value. -/
theorem dictGet?_dictInsert_self {α : Type} (m : List (String × α)) (k : String) (v : α) :
    dictGet? (dictInsert m k v) k = some v := by
  induction m with
  | nil => simp [dictInsert, dictGet?]
  | cons p rest ih =>
    obtain ⟨k', v'⟩ := p
    by_cases hk : k' = k
    · subst hk; simp [dictInsert, dictGet?]
    · simp [dictInsert, dictGet?, hk, ih]

/-- C10: when a dispatched event reaches the callbacks and one of them
raises, the exception is contained: every registered callback is still
invoked (the raising one included), the node cache keeps the update made
before dispatch, the manager state is exactly what the callbacks after the
raising one left behind, and the loop goes on to the next event. -/
theorem C10_callback_exception_contained (dk : List String)
    (cbs₁ cbs₂ : List Callback) (cb : Callback) (et : String) (raw : RawNode)
    (ws : WatchState) (evs : List (String × RawNode))
    (htrig : shouldTriggerCallback et
        (dictGet? ws.nodeCache (extractNodeInfo dk raw).name) (extractNodeInfo dk raw) = true)
    (hraise : ((cb et (extractNodeInfo dk raw)
        (dispatchCallbacks cbs₁ et (extractNodeInfo dk raw) ws.mgr).1).2).isSome = true) :
    (watchStep dk (cbs₁ ++ cb :: cbs₂) (et, raw) ws).2 = cbs₁.length + 1 + cbs₂.length ∧
    dictGet? (watchStep dk (cbs₁ ++ cb :: cbs₂) (et, raw) ws).1.nodeCache
        (extractNodeInfo dk raw).name = some (extractNodeInfo dk raw) ∧
    (watchStep dk (cbs₁ ++ cb :: cbs₂) (et, raw) ws).1.mgr =
      (dispatchCallbacks cbs₂ et (extractNodeInfo dk raw)
        (cb et (extractNodeInfo dk raw)
          (dispatchCallbacks cbs₁ et (extractNodeInfo dk raw) ws.mgr).1).1).1 ∧
    processEvents dk (cbs₁ ++ cb :: cbs₂) ((et, raw) :: evs) ws =
      processEvents dk (cbs₁ ++ cb :: cbs₂) evs
        (watchStep dk (cbs₁ ++ cb :: cbs₂) (et, raw) ws).1 := by
  refine ⟨?_, ?_, ?_, rfl⟩
  · simp [watchStep, htrig, dispatchCallbacks_count]
    omega
  · simp [watchStep, htrig, dictGet?_dictInsert_self]
  · simp [watchStep, htrig, dispatchCallbacks_append_fst, dispatchCallbacks]

theorem cacheStable_refl (st : CFState) : cacheStable st st := ⟨rfl, fun _ => rfl⟩

theorem cacheStable_trans {a b c : CFState} (h1 : cacheStable a b) (h2 : cacheStable b c) :
    cacheStable a c :=
  ⟨h2.1.trans h1.1, fun h => (h2.2 h).trans (h1.2 h)⟩

/-- Lookup over a concatenation: the first list wins. -/
theorem dictGet?_append {α : Type} (l₁ l₂ : List (String × α)) (k : String) :
    dictGet? (l₁ ++ l₂) k =
      (match dictGet? l₁ k with
        | some v => some v
        | none => dictGet? l₂ k) := by
  induction l₁ with
  | nil => simp [dictGet?]
  | cons p rest ih =>
    obtain ⟨k', v'⟩ := p
    by_cases hk : k' = k
    · subst hk; simp [dictGet?]
    · simp [dictGet?, hk, ih]

/-- Resolution reads only the two caches. -/
theorem resolveRes_ext (st st' : CFState) (hz : st'.zonesCache = st.zonesCache)
    (hh : st'.hostnameToZone = st.hostnameToZone) (h : String) :
    resolveRes st' h = resolveRes st h := by
  unfold resolveRes getZoneForHostname
  rw [hz, hh]
  cases hd : dictGet? st.hostnameToZone h with
  | some z => simp
  | none =>
    cases hf : findZoneDomain st.zonesCache (hostnameDomains h) with
    | some dz => obtain ⟨d, z⟩ := dz; simp
    | none => simp

theorem getZone_snd_records (st : CFState) (h : String) :
    ((getZoneForHostname st h).2).records = st.records := by
  unfold getZoneForHostname
  split
  · rfl
  · split
    · rfl
    · rfl

theorem getZone_snd_nextId (st : CFState) (h : String) :
    ((getZoneForHostname st h).2).nextId = st.nextId := by
  unfold getZoneForHostname
  split
  · rfl
  · split
    · rfl
    · rfl

theorem getZone_cacheStable (st : CFState) (h : String) :
    cacheStable st (getZoneForHostname st h).2 := by
  unfold getZoneForHostname
  cases hd : dictGet? st.hostnameToZone h with
  | some z => exact cacheStable_refl st
  | none =>
    cases hf : findZoneDomain st.zonesCache (hostnameDomains h) with
    | none => exact cacheStable_refl st
    | some dz =>
      obtain ⟨d, z⟩ := dz
      refine ⟨rfl, ?_⟩
      intro h2
      by_cases hh2 : h2 = h
      · subst hh2
        have hl : dictGet? (st.hostnameToZone ++ [(h2, z)]) h2 = some z := by
          rw [dictGet?_append, hd]
          simp [dictGet?]
        unfold resolveRes getZoneForHostname
        rw [hd, hf]
        simp only [hl]
      · have hne : ¬h = h2 := fun hc => hh2 hc.symm
        have hl : dictGet? (st.hostnameToZone ++ [(h, z)]) h2 = dictGet? st.hostnameToZone h2 := by
          rw [dictGet?_append]
          cases hd2 : dictGet? st.hostnameToZone h2 with
          | some v => rfl
          | none => simp [dictGet?, hne]
        unfold resolveRes getZoneForHostname
        simp only [hl]
        cases hd2 : dictGet? st.hostnameToZone h2 with
        | some v => simp
        | none =>
          cases hf2 : findZoneDomain st.zonesCache (hostnameDomains h2) with
          | some dz2 => obtain ⟨d2, z2⟩ := dz2; simp
          | none => simp

/-- Operations touching only records and nextId are cache stable. -/
theorem cacheStable_of_caches_eq {st st' : CFState}
    (hz : st'.zonesCache = st.zonesCache) (hh : st'.hostnameToZone = st.hostnameToZone) :
    cacheStable st st' :=
  ⟨hz, fun h => resolveRes_ext st st' hz hh h⟩

theorem deleteDnsRecord_cacheStable (st : CFState) (rid : Nat) (zid : String) :
    cacheStable st (deleteDnsRecord st rid zid) :=
  cacheStable_of_caches_eq rfl rfl

theorem deleteDnsRecord_records_subset (st : CFState) (rid : Nat) (zid : String) :
    ∀ r ∈ (deleteDnsRecord st rid zid).records, r ∈ st.records := by
  intro r hr
  exact (List.mem_filter.mp hr).1

/-- Persistence of goodHost under cache-stable steps whose new records all
carry valid IPs. -/
theorem goodHost_mono {ips : List String} {st st' : CFState} {h : String}
    (hcs : cacheStable st st')
    (hnew : ∀ r ∈ st'.records, r ∈ st.records ∨ memS r.content ips = true) :
    goodHost ips st h → goodHost ips st' h := by
  intro hg z hz r hr hm
  rcases hnew r hr with hold | hval
  · exact hg z ((hcs.2 h).symm.trans hz) r hold hm
  · exact hval

/-- Persistence of fullHost under cache-stable steps that keep the records. -/
theorem fullHost_mono {ips : List String} {st st' : CFState} {h : String}
    (hcs : cacheStable st st')
    (hsup : ∀ r ∈ st.records, r ∈ st'.records) :
    fullHost ips st h → fullHost ips st' h := by
  intro hf z hz ip hip
  obtain ⟨r, hr, hm, hc⟩ := hf z ((hcs.2 h).symm.trans hz) ip hip
  exact ⟨r, hsup r hr, hm, hc⟩

/-- A failed record listing means the hostname resolves to no zone, and the
operation made no state change. -/
theorem getDnsRecords_error_resolve (st : CFState) (h e : String) :
    getDnsRecords st h = .error e → resolveRes st h = none := by
  unfold getDnsRecords
  cases hg : getZoneForHostname st h with
  | mk fst snd =>
    cases fst with
    | none => intro _; rw [resolveRes, hg]
    | some z => intro hc; cases hc

/-- A successful record listing: the hostname resolved, the returned state
is the resolution state (same records, cache stable), and the returned list
filters the records by zone, name and type A. -/
theorem getDnsRecords_ok_spec (st : CFState) (h : String) (recs : List CFRecord)
    (st1 : CFState) :
    getDnsRecords st h = .ok (recs, st1) →
      ∃ z, resolveRes st h = some z ∧
        st1.records = st.records ∧ cacheStable st st1 ∧
        recs = st.records.filter (matchesA z h) := by
  unfold getDnsRecords
  cases hg : getZoneForHostname st h with
  | mk fst snd =>
    have hsr : snd.records = st.records := by
      have hx := getZone_snd_records st h
      rw [hg] at hx
      exact hx
    have hcs : cacheStable st snd := by
      have hx := getZone_cacheStable st h
      rw [hg] at hx
      exact hx
    cases fst with
    | none => intro hc; cases hc
    | some z =>
      intro hok
      injection hok with hok
      injection hok with h1 h2
      refine ⟨z, ?_, ?_, ?_, ?_⟩
      · rw [resolveRes, hg]
      · rw [← h2]; exact hsr
      · rw [← h2]; exact hcs
      · rw [← h1, hsr]

/-- A successful create on a resolvable hostname appends one matching record. -/
theorem createDnsRecord_spec (st : CFState) (h ip : String) (ttl : Int) (px : Bool)
    (z : String) (hz : resolveRes st h = some z) :
    ∃ r st', createDnsRecord st h ip ttl px = .ok (r, st') ∧ cacheStable st st' ∧
      st'.records = st.records ++ [r] ∧ matchesA z h r = true ∧ r.content = ip := by
  unfold createDnsRecord
  cases hg : getZoneForHostname st h with
  | mk fst snd =>
    have hsr : snd.records = st.records := by
      have hx := getZone_snd_records st h
      rw [hg] at hx
      exact hx
    have hcs : cacheStable st snd := by
      have hx := getZone_cacheStable st h
      rw [hg] at hx
      exact hx
    cases fst with
    | none => rw [resolveRes, hg] at hz; cases hz
    | some z0 =>
      have hz0 : z0 = z := by
        rw [resolveRes, hg] at hz
        simpa using hz
      subst hz0
      refine ⟨⟨snd.nextId, h, "A", ip, ttl, px, z0⟩, _, rfl, ?_, ?_, ?_, rfl⟩
      · exact cacheStable_trans hcs (cacheStable_of_caches_eq rfl rfl)
      · show snd.records ++ _ = st.records ++ _
        rw [hsr]
      · simp [matchesA]

/-- A successful create-or-reuse on a resolvable hostname: cache stable, all
records kept, any new record matches the hostname with the requested IP, and
some matching record with that IP exists afterwards. -/
theorem createFromConfig_spec (st : CFState) (c : ServiceDNSConfig) (ip z : String)
    (hz : resolveRes st c.hostname = some z) :
    ∃ r st', createDnsRecordFromServiceConfig st c ip = .ok (r, st') ∧
      cacheStable st st' ∧
      (∀ x ∈ st'.records, x ∈ st.records ∨ (matchesA z c.hostname x = true ∧ x.content = ip)) ∧
      (∀ x ∈ st.records, x ∈ st'.records) ∧
      (∃ x, x ∈ st'.records ∧ matchesA z c.hostname x = true ∧ x.content = ip) := by
  cases hgd : getDnsRecords st c.hostname with
  | error e =>
    rw [getDnsRecords_error_resolve st c.hostname e hgd] at hz
    cases hz
  | ok pair =>
    obtain ⟨recs, st1⟩ := pair
    obtain ⟨z1, hz1, hrec1, hcs1, hfilter⟩ := getDnsRecords_ok_spec st c.hostname recs st1 hgd
    have hzz : z1 = z := by
      rw [hz1] at hz
      simpa using hz
    subst hzz
    have hred : createDnsRecordFromServiceConfig st c ip =
        (match recs.find? (fun r => r.content == ip) with
          | some r => Except.ok (r, st1)
          | none => createDnsRecord st1 c.hostname ip c.ttl c.proxied) := by
      unfold createDnsRecordFromServiceConfig
      rw [hgd]
    cases hfind : recs.find? (fun r => r.content == ip) with
    | some r =>
      rw [hfind] at hred
      have hrmem : r ∈ recs := List.mem_of_find?_eq_some hfind
      have hrip : r.content = ip := by simpa using List.find?_some hfind
      rw [hfilter] at hrmem
      have hrmem2 := List.mem_filter.mp hrmem
      refine ⟨r, st1, hred, hcs1, ?_, ?_, ⟨r, ?_, hrmem2.2, hrip⟩⟩
      · intro x hx
        rw [hrec1] at hx
        exact Or.inl hx
      · intro x hx
        rw [hrec1]
        exact hx
      · rw [hrec1]
        exact hrmem2.1
    | none =>
      rw [hfind] at hred
      have hz1x : resolveRes st1 c.hostname = some z1 := (hcs1.2 c.hostname).trans hz1
      obtain ⟨r, st2, hcr, hcs2, hrecs2, hm2, hip2⟩ :=
        createDnsRecord_spec st1 c.hostname ip c.ttl c.proxied z1 hz1x
      rw [hcr] at hred
      refine ⟨r, st2, hred, cacheStable_trans hcs1 hcs2, ?_, ?_, ⟨r, ?_, hm2, hip2⟩⟩
      · intro x hx
        rw [hrecs2, hrec1] at hx
        rcases List.mem_append.mp hx with hx1 | hx2
        · exact Or.inl hx1
        · rcases List.mem_singleton.mp hx2 with rfl
          exact Or.inr ⟨hm2, hip2⟩
      · intro x hx
        rw [hrecs2, hrec1]
        exact List.mem_append_left _ hx
      · rw [hrecs2]
        exact List.mem_append_right _ (List.mem_singleton.mpr rfl)

theorem syncDeleteLoop_cons_true (ips : List String) (r : CFRecord) (rs : List CFRecord)
    (st : CFState) (hm : memS r.content ips = true) :
    syncDeleteLoop ips (r :: rs) st =
      ((syncDeleteLoop ips rs st).1, (syncDeleteLoop ips rs st).2.1,
        (syncDeleteLoop ips rs st).2.2 + 1) := by
  simp [syncDeleteLoop, hm]

theorem syncDeleteLoop_cons_false (ips : List String) (r : CFRecord) (rs : List CFRecord)
    (st : CFState) (hm : memS r.content ips = false) :
    syncDeleteLoop ips (r :: rs) st =
      ((syncDeleteLoop ips rs (deleteDnsRecord st r.id r.zoneId)).1,
        (syncDeleteLoop ips rs (deleteDnsRecord st r.id r.zoneId)).2.1 + 1,
        (syncDeleteLoop ips rs (deleteDnsRecord st r.id r.zoneId)).2.2) := by
  simp [syncDeleteLoop, hm]

theorem syncDeleteLoop_cacheStable (ips : List String) :
    ∀ (rs : List CFRecord) (st : CFState), cacheStable st (syncDeleteLoop ips rs st).1 := by
  intro rs
  induction rs with
  | nil => intro st; exact cacheStable_refl st
  | cons r rs ih =>
    intro st
    cases hm : memS r.content ips with
    | true => rw [syncDeleteLoop_cons_true ips r rs st hm]; exact ih st
    | false =>
      rw [syncDeleteLoop_cons_false ips r rs st hm]
      exact cacheStable_trans (deleteDnsRecord_cacheStable st r.id r.zoneId) (ih _)

theorem syncDeleteLoop_subset (ips : List String) :
    ∀ (rs : List CFRecord) (st : CFState) (x : CFRecord),
      x ∈ (syncDeleteLoop ips rs st).1.records → x ∈ st.records := by
  intro rs
  induction rs with
  | nil => intro st x hx; exact hx
  | cons r rs ih =>
    intro st x hx
    cases hm : memS r.content ips with
    | true =>
      rw [syncDeleteLoop_cons_true ips r rs st hm] at hx
      exact ih st x hx
    | false =>
      rw [syncDeleteLoop_cons_false ips r rs st hm] at hx
      exact deleteDnsRecord_records_subset st r.id r.zoneId x (ih _ x hx)

theorem syncDeleteLoop_purge (ips : List String) :
    ∀ (rs : List CFRecord) (st : CFState) (x : CFRecord),
      x ∈ (syncDeleteLoop ips rs st).1.records → x ∈ rs → memS x.content ips = true := by
  intro rs
  induction rs with
  | nil => intro st x _ hxr; cases hxr
  | cons r rs ih =>
    intro st x hx hxr
    cases hm : memS r.content ips with
    | true =>
      rw [syncDeleteLoop_cons_true ips r rs st hm] at hx
      rcases List.mem_cons.mp hxr with rfl | h2
      · exact hm
      · exact ih st x hx h2
    | false =>
      rw [syncDeleteLoop_cons_false ips r rs st hm] at hx
      rcases List.mem_cons.mp hxr with rfl | h2
      · have hx1 := syncDeleteLoop_subset ips rs _ x hx
        have hx2 := List.mem_filter.mp hx1
        simp at hx2
      · exact ih _ x hx h2

theorem syncDeleteLoop_noop (ips : List String) :
    ∀ (rs : List CFRecord) (st : CFState), (∀ r ∈ rs, memS r.content ips = true) →
      syncDeleteLoop ips rs st = (st, 0, rs.length) := by
  intro rs
  induction rs with
  | nil => intro st _; rfl
  | cons r rs ih =>
    intro st hall
    rw [syncDeleteLoop_cons_true ips r rs st (hall r (List.mem_cons_self _ _)),
      ih st (fun q hq => hall q (List.mem_cons_of_mem _ hq))]
    rfl

/-- A failed per-hostname sync means the hostname resolves to no zone. -/
theorem syncHostname_error_resolve (st : CFState) (h : String) (ips : List String)
    (e : String) :
    syncDnsRecordsForHostname st h ips = .error e → resolveRes st h = none := by
  unfold syncDnsRecordsForHostname
  cases hgd : getDnsRecords st h with
  | error e2 => intro _; exact getDnsRecords_error_resolve st h e2 hgd
  | ok pair =>
    obtain ⟨recs, st1⟩ := pair
    intro hc
    cases hc

/-- An unresolvable hostname makes the per-hostname sync raise. -/
theorem getDnsRecords_error_of_none (st : CFState) (h : String)
    (hz : resolveRes st h = none) :
    getDnsRecords st h = .error ("No CloudFlare zone found for hostname: " ++ h) := by
  unfold getDnsRecords
  cases hgz : getZoneForHostname st h with
  | mk fst snd =>
    cases fst with
    | none => rfl
    | some z => rw [resolveRes, hgz] at hz; simp at hz

theorem syncHostname_error_of_none (st : CFState) (h : String) (ips : List String)
    (hz : resolveRes st h = none) :
    syncDnsRecordsForHostname st h ips =
      .error ("No CloudFlare zone found for hostname: " ++ h) := by
  unfold syncDnsRecordsForHostname
  rw [getDnsRecords_error_of_none st h hz]

/-- A successful per-hostname sync is cache stable, only removes records and
leaves every record the hostname owns with a valid IP. -/
theorem syncHostname_ok_spec (st : CFState) (h : String) (ips : List String)
    (res : HostSyncResult) (st' : CFState) :
    syncDnsRecordsForHostname st h ips = .ok (res, st') →
      cacheStable st st' ∧ (∀ x ∈ st'.records, x ∈ st.records) ∧ goodHost ips st' h := by
  unfold syncDnsRecordsForHostname
  cases hgd : getDnsRecords st h with
  | error e => intro hc; cases hc
  | ok pair =>
    obtain ⟨recs, st1⟩ := pair
    obtain ⟨z, hz, hrec1, hcs1, hfilter⟩ := getDnsRecords_ok_spec st h recs st1 hgd
    intro hok
    injection hok with hok
    injection hok with h1 h2
    have hcsAll : cacheStable st (syncDeleteLoop ips recs st1).1 :=
      cacheStable_trans hcs1 (syncDeleteLoop_cacheStable ips recs st1)
    refine ⟨h2 ▸ hcsAll, ?_, ?_⟩
    · intro x hx
      rw [← h2] at hx
      have hx1 := syncDeleteLoop_subset ips recs st1 x hx
      rw [hrec1] at hx1
      exact hx1
    · intro z2 hz2 x hx hmx
      rw [← h2] at hz2 hx
      have hzz : z2 = z := by
        rw [hcsAll.2 h, hz] at hz2
        injection hz2 with hx2
        exact hx2.symm
      subst hzz
      have hx1 := syncDeleteLoop_subset ips recs st1 x hx
      have hxr : x ∈ recs := by
        rw [hfilter]
        rw [hrec1] at hx1
        exact List.mem_filter.mpr ⟨hx1, hmx⟩
      exact syncDeleteLoop_purge ips recs st1 x hx hxr

/-- On a hostname whose records are already all valid, the per-hostname sync
deletes nothing and keeps the state. -/
theorem syncHostname_noop (st : CFState) (h : String) (ips : List String) (z : String)
    (hz : resolveRes st h = some z) (hg : goodHost ips st h) :
    ∃ res st', syncDnsRecordsForHostname st h ips = .ok (res, st') ∧
      res.recordsDeleted = 0 ∧ st'.records = st.records ∧ cacheStable st st' := by
  unfold syncDnsRecordsForHostname
  cases hgd : getDnsRecords st h with
  | error e =>
    rw [getDnsRecords_error_resolve st h e hgd] at hz
    cases hz
  | ok pair =>
    obtain ⟨recs, st1⟩ := pair
    obtain ⟨z1, hz1, hrec1, hcs1, hfilter⟩ := getDnsRecords_ok_spec st h recs st1 hgd
    have hzz : z1 = z := by
      rw [hz1] at hz
      simpa using hz
    subst hzz
    have hall : ∀ r ∈ recs, memS r.content ips = true := by
      intro r hr
      rw [hfilter] at hr
      have hmf := List.mem_filter.mp hr
      exact hg z1 hz1 r hmf.1 hmf.2
    simp only [syncDeleteLoop_noop ips recs st1 hall]
    exact ⟨_, st1, rfl, rfl, hrec1, hcs1⟩

/-- Membership after a dict insert. -/
theorem mem_dictInsert {α : Type} (k : String) (v : α) :
    ∀ (m : List (String × α)) (p : String × α),
      p ∈ dictInsert m k v → p ∈ m ∨ p = (k, v) := by
  intro m
  induction m with
  | nil =>
    intro p hp
    simp [dictInsert] at hp
    exact Or.inr hp
  | cons q rest ih =>
    obtain ⟨k', v'⟩ := q
    intro p hp
    by_cases hk : k' = k
    · subst hk
      rw [dictInsert, if_pos rfl] at hp
      rcases List.mem_cons.mp hp with rfl | hp2
      · exact Or.inr rfl
      · exact Or.inl (List.mem_cons_of_mem _ hp2)
    · rw [dictInsert, if_neg hk] at hp
      rcases List.mem_cons.mp hp with rfl | hp2
      · exact Or.inl (List.mem_cons_self _ _)
      · rcases ih p hp2 with h1 | h2
        · exact Or.inl (List.mem_cons_of_mem _ h1)
        · exact Or.inr h2

/-- A results dict whose entries all deleted nothing sums to zero. -/
theorem sum_deleted_zero (l : List (String × HostSyncResult))
    (h : ∀ p ∈ l, p.2.recordsDeleted = 0) :
    (l.map (fun p => p.2.recordsDeleted)).sum = 0 := by
  induction l with
  | nil => rfl
  | cons p rest ih =>
    simp [h p (List.mem_cons_self _ _), ih (fun q hq => h q (List.mem_cons_of_mem _ hq))]

/-- The deletion phase over all configs is cache stable, only removes
records, and leaves every config hostname good. -/
theorem syncLoop_establishes (ips : List String) :
    ∀ (cs : List ServiceDNSConfig) (acc : List (String × HostSyncResult)) (st : CFState),
      cacheStable st (syncForConfigsLoop ips cs acc st).2 ∧
      (∀ x ∈ (syncForConfigsLoop ips cs acc st).2.records, x ∈ st.records) ∧
      (∀ c ∈ cs, goodHost ips (syncForConfigsLoop ips cs acc st).2 c.hostname) := by
  intro cs
  induction cs with
  | nil =>
    intro acc st
    exact ⟨cacheStable_refl st, fun x hx => hx, by simp⟩
  | cons c cs ih =>
    intro acc st
    cases hs : syncDnsRecordsForHostname st c.hostname ips with
    | ok pair =>
      obtain ⟨res, st1⟩ := pair
      obtain ⟨hcs1, hsub1, hgood1⟩ := syncHostname_ok_spec st c.hostname ips res st1 hs
      have hstep : syncForConfigsLoop ips (c :: cs) acc st =
          syncForConfigsLoop ips cs (dictInsert acc c.hostname res) st1 := by
        simp only [syncForConfigsLoop, hs]
      obtain ⟨hcsR, hsubR, hgoodR⟩ := ih (dictInsert acc c.hostname res) st1
      rw [hstep]
      refine ⟨cacheStable_trans hcs1 hcsR, fun x hx => hsub1 x (hsubR x hx), ?_⟩
      intro c2 hc2
      rcases List.mem_cons.mp hc2 with rfl | hc2t
      · exact goodHost_mono hcsR (fun r hr => Or.inl (hsubR r hr)) hgood1
      · exact hgoodR c2 hc2t
    | error e =>
      have hznone := syncHostname_error_resolve st c.hostname ips e hs
      have hstep : syncForConfigsLoop ips (c :: cs) acc st =
          syncForConfigsLoop ips cs (dictInsert acc c.hostname
            { success := false, recordsDeleted := 0, recordsKept := 0, errors := [],
              errorMsg := some e }) st := by
        simp only [syncForConfigsLoop, hs]
      obtain ⟨hcsR, hsubR, hgoodR⟩ := ih (dictInsert acc c.hostname
        { success := false, recordsDeleted := 0, recordsKept := 0, errors := [],
          errorMsg := some e }) st
      rw [hstep]
      refine ⟨hcsR, hsubR, ?_⟩
      intro c2 hc2
      rcases List.mem_cons.mp hc2 with rfl | hc2t
      · intro z hzz
        rw [hcsR.2 _, hznone] at hzz
        cases hzz
      · exact hgoodR c2 hc2t

/-- When every config hostname is already good, the deletion phase removes
nothing: the records are untouched and every result entry deleted zero. -/
theorem syncLoop_noop (ips : List String) :
    ∀ (cs : List ServiceDNSConfig) (acc : List (String × HostSyncResult)) (st : CFState),
      (∀ c ∈ cs, goodHost ips st c.hostname) →
      (syncForConfigsLoop ips cs acc st).2.records = st.records ∧
      cacheStable st (syncForConfigsLoop ips cs acc st).2 ∧
      (∀ p ∈ (syncForConfigsLoop ips cs acc st).1, p.2.recordsDeleted = 0 ∨ p ∈ acc) := by
  intro cs
  induction cs with
  | nil =>
    intro acc st _
    exact ⟨rfl, cacheStable_refl st, fun p hp => Or.inr hp⟩
  | cons c cs ih =>
    intro acc st hg
    have hgc := hg c (List.mem_cons_self _ _)
    cases hz : resolveRes st c.hostname with
    | some z =>
      obtain ⟨res, st1, hsync, hdel0, hrec1, hcs1⟩ :=
        syncHostname_noop st c.hostname ips z hz hgc
      have hstep : syncForConfigsLoop ips (c :: cs) acc st =
          syncForConfigsLoop ips cs (dictInsert acc c.hostname res) st1 := by
        simp only [syncForConfigsLoop, hsync]
      have hg1 : ∀ c2 ∈ cs, goodHost ips st1 c2.hostname := by
        intro c2 hc2
        refine goodHost_mono hcs1 ?_ (hg c2 (List.mem_cons_of_mem _ hc2))
        intro r hr
        rw [hrec1] at hr
        exact Or.inl hr
      obtain ⟨hrecR, hcsR, hvalR⟩ := ih (dictInsert acc c.hostname res) st1 hg1
      rw [hstep]
      refine ⟨hrecR.trans hrec1, cacheStable_trans hcs1 hcsR, ?_⟩
      intro p hp
      rcases hvalR p hp with h0 | hacc
      · exact Or.inl h0
      · rcases mem_dictInsert c.hostname res acc p hacc with h1 | h2
        · exact Or.inr h1
        · subst h2
          exact Or.inl hdel0
    | none =>
      have hsync := syncHostname_error_of_none st c.hostname ips hz
      have hstep : syncForConfigsLoop ips (c :: cs) acc st =
          syncForConfigsLoop ips cs (dictInsert acc c.hostname
            { success := false, recordsDeleted := 0, recordsKept := 0, errors := [],
              errorMsg := some ("No CloudFlare zone found for hostname: " ++ c.hostname) })
            st := by
        simp only [syncForConfigsLoop, hsync]
      have hg1 : ∀ c2 ∈ cs, goodHost ips st c2.hostname :=
        fun c2 hc2 => hg c2 (List.mem_cons_of_mem _ hc2)
      obtain ⟨hrecR, hcsR, hvalR⟩ := ih (dictInsert acc c.hostname
        { success := false, recordsDeleted := 0, recordsKept := 0, errors := [],
          errorMsg := some ("No CloudFlare zone found for hostname: " ++ c.hostname) })
        st hg1
      rw [hstep]
      refine ⟨hrecR, hcsR, ?_⟩
      intro p hp
      rcases hvalR p hp with h0 | hacc
      · exact Or.inl h0
      · rcases mem_dictInsert _ _ acc p hacc with h1 | h2
        · exact Or.inr h1
        · subst h2
          exact Or.inl rfl

/-- The per-config creation loop on a resolvable hostname: cache stable, all
records kept, new records only for the given hostname with supplied IPs, and
every supplied IP covered afterwards. -/
theorem createIPsLoop_spec (c : ServiceDNSConfig) (z : String) (ips0 : List String) :
    ∀ (ipsL : List String) (st : CFState), resolveRes st c.hostname = some z →
      (∀ ip ∈ ipsL, memS ip ips0 = true) →
      cacheStable st (createIPsLoop c ipsL st).1 ∧
      (∀ x ∈ (createIPsLoop c ipsL st).1.records,
        x ∈ st.records ∨ (matchesA z c.hostname x = true ∧ memS x.content ips0 = true)) ∧
      (∀ x ∈ st.records, x ∈ (createIPsLoop c ipsL st).1.records) ∧
      (∀ ip ∈ ipsL, ∃ x, x ∈ (createIPsLoop c ipsL st).1.records ∧
        matchesA z c.hostname x = true ∧ x.content = ip) := by
  intro ipsL
  induction ipsL with
  | nil =>
    intro st hz _
    exact ⟨cacheStable_refl st, fun x hx => Or.inl hx, fun x hx => hx, by simp⟩
  | cons ip rest ih =>
    intro st hz hsub
    obtain ⟨r, st1, hcr, hcs1, hchar1, hsup1, hex1⟩ := createFromConfig_spec st c ip z hz
    have hstep : createIPsLoop c (ip :: rest) st =
        ((createIPsLoop c rest st1).1, (createIPsLoop c rest st1).2.1 + 1,
          (createIPsLoop c rest st1).2.2) := by
      simp only [createIPsLoop, hcr]
    have hz1 : resolveRes st1 c.hostname = some z := (hcs1.2 c.hostname).trans hz
    obtain ⟨hcsR, hcharR, hsupR, hcovR⟩ :=
      ih st1 hz1 (fun q hq => hsub q (List.mem_cons_of_mem _ hq))
    rw [hstep]
    refine ⟨cacheStable_trans hcs1 hcsR, ?_, ?_, ?_⟩
    · intro x hx
      rcases hcharR x hx with hx1 | hx2
      · rcases hchar1 x hx1 with hx3 | hx4
        · exact Or.inl hx3
        · refine Or.inr ⟨hx4.1, ?_⟩
          rw [hx4.2]
          exact hsub ip (List.mem_cons_self _ _)
      · exact Or.inr hx2
    · intro x hx
      exact hsupR x (hsup1 x hx)
    · intro ip2 hip2
      rcases List.mem_cons.mp hip2 with rfl | hip2t
      · obtain ⟨x, hx, hm, hcnt⟩ := hex1
        exact ⟨x, hsupR x hx, hm, hcnt⟩
      · exact hcovR ip2 hip2t

/-- The creation phase for one config: cache stable, all records kept, new
records only with healthy IPs, and the hostname full afterwards. -/
theorem createMissingForConfig_spec (ips0 : List String) (c : ServiceDNSConfig)
    (st : CFState) :
    cacheStable st (createMissingForConfig ips0 c st).1 ∧
    (∀ x ∈ (createMissingForConfig ips0 c st).1.records,
      x ∈ st.records ∨ memS x.content ips0 = true) ∧
    (∀ x ∈ st.records, x ∈ (createMissingForConfig ips0 c st).1.records) ∧
    fullHost ips0 (createMissingForConfig ips0 c st).1 c.hostname := by
  cases hgd : getDnsRecords st c.hostname with
  | error e =>
    have hznone := getDnsRecords_error_resolve st c.hostname e hgd
    simp only [createMissingForConfig, hgd]
    refine ⟨cacheStable_refl st, fun x hx => Or.inl hx, fun x hx => hx, ?_⟩
    intro z hz
    rw [hznone] at hz
    cases hz
  | ok pair =>
    obtain ⟨current, st1⟩ := pair
    obtain ⟨z, hz, hrec1, hcs1, hfilter⟩ := getDnsRecords_ok_spec st c.hostname current st1 hgd
    have hstep : createMissingForConfig ips0 c st =
        createIPsLoop c
          ((ips0.dedup).filter (fun ip => !memS ip (current.map CFRecord.content))) st1 := by
      simp only [createMissingForConfig, hgd]
    have hz1 : resolveRes st1 c.hostname = some z := (hcs1.2 c.hostname).trans hz
    have hsubM : ∀ ip ∈ (ips0.dedup).filter
        (fun ip => !memS ip (current.map CFRecord.content)), memS ip ips0 = true := by
      intro ip hip
      exact (memS_iff_mem ip ips0).mpr (List.mem_dedup.mp (List.mem_filter.mp hip).1)
    obtain ⟨hcsL, hcharL, hsupL, hcovL⟩ := createIPsLoop_spec c z ips0 _ st1 hz1 hsubM
    rw [hstep]
    refine ⟨cacheStable_trans hcs1 hcsL, ?_, ?_, ?_⟩
    · intro x hx
      rcases hcharL x hx with h1 | h2
      · rw [hrec1] at h1
        exact Or.inl h1
      · exact Or.inr h2.2
    · intro x hx
      apply hsupL
      rw [hrec1]
      exact hx
    · intro z2 hz2 ip hip
      have hstab : cacheStable st (createIPsLoop c
          ((ips0.dedup).filter (fun ip => !memS ip (current.map CFRecord.content))) st1).1 :=
        cacheStable_trans hcs1 hcsL
      have hz2' : z2 = z := by
        rw [hstab.2 c.hostname, hz] at hz2
        injection hz2 with hh
        exact hh.symm
      subst hz2'
      cases hcur : memS ip (current.map CFRecord.content) with
      | true =>
        obtain ⟨r, hrcur, hrcnt⟩ := List.mem_map.mp ((memS_iff_mem _ _).mp hcur)
        rw [hfilter] at hrcur
        have hrmf := List.mem_filter.mp hrcur
        refine ⟨r, ?_, hrmf.2, hrcnt⟩
        apply hsupL
        rw [hrec1]
        exact hrmf.1
      | false =>
        have hmem : ip ∈ (ips0.dedup).filter
            (fun q => !memS q (current.map CFRecord.content)) := by
          apply List.mem_filter.mpr
          exact ⟨List.mem_dedup.mpr hip, by rw [hcur]; rfl⟩
        exact hcovL ip hmem

/-- The creation phase over all configs. -/
theorem createMissingLoop_spec (ips0 : List String) :
    ∀ (cs : List ServiceDNSConfig) (st : CFState),
      cacheStable st (createMissingLoop ips0 cs st).1 ∧
      (∀ x ∈ (createMissingLoop ips0 cs st).1.records,
        x ∈ st.records ∨ memS x.content ips0 = true) ∧
      (∀ x ∈ st.records, x ∈ (createMissingLoop ips0 cs st).1.records) ∧
      (∀ c ∈ cs, fullHost ips0 (createMissingLoop ips0 cs st).1 c.hostname) := by
  intro cs
  induction cs with
  | nil =>
    intro st
    exact ⟨cacheStable_refl st, fun x hx => Or.inl hx, fun x hx => hx, by simp⟩
  | cons c cs ih =>
    intro st
    obtain ⟨hcs1, hchar1, hsup1, hfull1⟩ := createMissingForConfig_spec ips0 c st
    obtain ⟨hcsR, hcharR, hsupR, hfullR⟩ := ih (createMissingForConfig ips0 c st).1
    simp only [createMissingLoop]
    refine ⟨cacheStable_trans hcs1 hcsR, ?_, ?_, ?_⟩
    · intro x hx
      rcases hcharR x hx with h1 | h2
      · exact hchar1 x h1
      · exact Or.inr h2
    · intro x hx
      exact hsupR x (hsup1 x hx)
    · intro c2 hc2
      rcases List.mem_cons.mp hc2 with rfl | hc2t
      · exact fullHost_mono hcsR hsupR hfull1
      · exact hfullR c2 hc2t

/-- The creation phase for one config whose hostname is already full: the
records are untouched and nothing is created. -/
theorem createMissingForConfig_noop (ips0 : List String) (c : ServiceDNSConfig)
    (st : CFState) (hf : fullHost ips0 st c.hostname) :
    (createMissingForConfig ips0 c st).1.records = st.records ∧
    cacheStable st (createMissingForConfig ips0 c st).1 ∧
    (createMissingForConfig ips0 c st).2.1 = 0 := by
  cases hgd : getDnsRecords st c.hostname with
  | error e =>
    simp only [createMissingForConfig, hgd]
    refine ⟨?_, cacheStable_refl st, ?_⟩ <;> first | rfl | trivial
  | ok pair =>
    obtain ⟨current, st1⟩ := pair
    obtain ⟨z, hz, hrec1, hcs1, hfilter⟩ := getDnsRecords_ok_spec st c.hostname current st1 hgd
    have hmiss : (ips0.dedup).filter
        (fun ip => !memS ip (current.map CFRecord.content)) = [] := by
      rw [List.filter_eq_nil_iff]
      intro ip hip
      obtain ⟨r, hr, hm, hcnt⟩ := hf z hz ip (List.mem_dedup.mp hip)
      have hrc : r ∈ current := by
        rw [hfilter]
        exact List.mem_filter.mpr ⟨hr, hm⟩
      have hms : memS ip (current.map CFRecord.content) = true :=
        (memS_iff_mem _ _).mpr (List.mem_map.mpr ⟨r, hrc, hcnt⟩)
      simp [hms]
    simp only [createMissingForConfig, hgd, hmiss]
    exact ⟨hrec1, hcs1, rfl⟩

/-- The creation phase over configs that are all already full: the records
are untouched and the creation counter stays zero. -/
theorem createMissingLoop_noop (ips0 : List String) :
    ∀ (cs : List ServiceDNSConfig) (st : CFState),
      (∀ c ∈ cs, fullHost ips0 st c.hostname) →
      (createMissingLoop ips0 cs st).1.records = st.records ∧
      cacheStable st (createMissingLoop ips0 cs st).1 ∧
      (createMissingLoop ips0 cs st).2.1 = 0 := by
  intro cs
  induction cs with
  | nil =>
    intro st _
    exact ⟨rfl, cacheStable_refl st, rfl⟩
  | cons c cs ih =>
    intro st hf
    obtain ⟨hr1, hc1, hn1⟩ := createMissingForConfig_noop ips0 c st (hf c (List.mem_cons_self _ _))
    have hf1 : ∀ c2 ∈ cs, fullHost ips0 (createMissingForConfig ips0 c st).1 c2.hostname := by
      intro c2 hc2
      refine fullHost_mono hc1 ?_ (hf c2 (List.mem_cons_of_mem _ hc2))
      intro r hr
      rw [hr1]
      exact hr
    obtain ⟨hrR, hcR, hnR⟩ := ih (createMissingForConfig ips0 c st).1 hf1
    simp only [createMissingLoop]
    exact ⟨hrR.trans hr1, cacheStable_trans hc1 hcR, by rw [hn1, hnR]⟩

/-- The final record inventory never touches the records. -/
theorem getAllLoop_spec :
    ∀ (hs : List String) (acc : List (String × List CFRecord)) (st : CFState),
      (getAllLoop hs acc st).2.records = st.records ∧
      cacheStable st (getAllLoop hs acc st).2 := by
  intro hs
  induction hs with
  | nil => intro acc st; exact ⟨rfl, cacheStable_refl st⟩
  | cons h hs ih =>
    intro acc st
    by_cases hstrip : String.mk (pyStrip h.data) = ""
    · simp only [getAllLoop, if_pos hstrip]
      exact ih acc st
    · simp only [getAllLoop, if_neg hstrip]
      cases hgd : getDnsRecords st (String.mk (pyStrip h.data)) with
      | ok pair =>
        obtain ⟨recs, st1⟩ := pair
        obtain ⟨z, hz, hrec1, hcs1, -⟩ := getDnsRecords_ok_spec st _ recs st1 hgd
        obtain ⟨hrR, hcR⟩ := ih (dictInsert acc h recs) st1
        exact ⟨hrR.trans hrec1, cacheStable_trans hcs1 hcR⟩
      | error e =>
        exact ih (dictInsert acc h []) st

/-- One full sweep leaves every config hostname both good (no invalid IPs)
and full (every healthy IP present), cache stably. -/
theorem fullSyncMutations_spec (ips0 : List String) (cfgs : List ServiceDNSConfig)
    (cf : CFState) :
    cacheStable cf (fullSyncMutations ips0 cfgs cf).1 ∧
    (∀ c ∈ cfgs, goodHost ips0 (fullSyncMutations ips0 cfgs cf).1 c.hostname ∧
      fullHost ips0 (fullSyncMutations ips0 cfgs cf).1 c.hostname) := by
  obtain ⟨hcsA, hsubA, hgoodA⟩ := syncLoop_establishes ips0 cfgs [] cf
  obtain ⟨hcsB, hcharB, hsupB, hfullB⟩ :=
    createMissingLoop_spec ips0 cfgs (syncForConfigsLoop ips0 cfgs [] cf).2
  obtain ⟨hrecC, hcsC⟩ := getAllLoop_spec (cfgs.map ServiceDNSConfig.hostname) []
    (createMissingLoop ips0 cfgs (syncForConfigsLoop ips0 cfgs [] cf).2).1
  simp only [fullSyncMutations]
  constructor
  · exact cacheStable_trans hcsA (cacheStable_trans hcsB hcsC)
  · intro c hc
    constructor
    · refine goodHost_mono hcsC ?_ (goodHost_mono hcsB hcharB (hgoodA c hc))
      intro r hr
      rw [hrecC] at hr
      exact Or.inl hr
    · refine fullHost_mono hcsC ?_ (hfullB c hc)
      intro r hr
      rw [hrecC]
      exact hr

/-- A sweep over a provider state whose config hostnames are already good
and full performs zero deletions, zero creations, and keeps the records. -/
theorem fullSyncMutations_noop (ips0 : List String) (cfgs : List ServiceDNSConfig)
    (cf : CFState)
    (hg : ∀ c ∈ cfgs, goodHost ips0 cf c.hostname)
    (hf : ∀ c ∈ cfgs, fullHost ips0 cf c.hostname) :
    (fullSyncMutations ips0 cfgs cf).1.records = cf.records ∧
    (fullSyncMutations ips0 cfgs cf).2.1 = 0 ∧
    (fullSyncMutations ips0 cfgs cf).2.2 = 0 := by
  obtain ⟨hrecA, hcsA, hvalA⟩ := syncLoop_noop ips0 cfgs [] cf hg
  have hfA : ∀ c ∈ cfgs, fullHost ips0 (syncForConfigsLoop ips0 cfgs [] cf).2 c.hostname := by
    intro c hc
    refine fullHost_mono hcsA ?_ (hf c hc)
    intro r hr
    rw [hrecA]
    exact hr
  obtain ⟨hrecB, hcsB, hcntB⟩ :=
    createMissingLoop_noop ips0 cfgs (syncForConfigsLoop ips0 cfgs [] cf).2 hfA
  obtain ⟨hrecC, hcsC⟩ := getAllLoop_spec (cfgs.map ServiceDNSConfig.hostname) []
    (createMissingLoop ips0 cfgs (syncForConfigsLoop ips0 cfgs [] cf).2).1
  simp only [fullSyncMutations]
  refine ⟨?_, hcntB, ?_⟩
  · rw [hrecC, hrecB, hrecA]
  · apply sum_deleted_zero
    intro p hp
    rcases hvalA p hp with h0 | hacc
    · exact h0
    · cases hacc

/-- The shape of one sync when the node listing succeeds. -/
theorem performFullSync_ok_proj (env : Env) (st : MgrState) (rawNodes : List RawNode)
    (hn : env.nodes = .ok rawNodes) :
    (performFullSync env st).st.cf =
      (fullSyncMutations (healthyIPsOf env rawNodes)
        (refreshServiceConfigs (listIntents env.services) st).serviceConfigsCache
        (refreshServiceConfigs (listIntents env.services) st).cf).1 ∧
    (performFullSync env st).opsCreated =
      (fullSyncMutations (healthyIPsOf env rawNodes)
        (refreshServiceConfigs (listIntents env.services) st).serviceConfigsCache
        (refreshServiceConfigs (listIntents env.services) st).cf).2.1 ∧
    (performFullSync env st).opsDeleted =
      (fullSyncMutations (healthyIPsOf env rawNodes)
        (refreshServiceConfigs (listIntents env.services) st).serviceConfigsCache
        (refreshServiceConfigs (listIntents env.services) st).cf).2.2 ∧
    (performFullSync env st).st.serviceConfigsCache =
      (refreshServiceConfigs (listIntents env.services) st).serviceConfigsCache := by
  simp only [performFullSync, hn, healthyIPsOf]
  refine ⟨?_, ?_, ?_, ?_⟩ <;> first | rfl | trivial

/-- C2: with the environment (node listing, service listing, provider state)
unchanged between two perform_full_sync calls, the second call performs zero
record creations and zero record deletions, and leaves the provider records
exactly as the first call left them. -/
theorem C2_second_sync_is_noop (env : Env) (st : MgrState) :
    (performFullSync env (performFullSync env st).st).opsCreated = 0 ∧
    (performFullSync env (performFullSync env st).st).opsDeleted = 0 ∧
    (performFullSync env (performFullSync env st).st).st.cf.records =
      (performFullSync env st).st.cf.records := by
  cases hn : env.nodes with
  | error e =>
    simp only [performFullSync, hn]
    refine ⟨?_, ?_, ?_⟩
    · first | rfl | trivial
    · first | rfl | trivial
    · cases hl : listIntents env.services <;> simp [refreshServiceConfigs, hl]
  | ok rawNodes =>
    obtain ⟨hcf1, hc1, hd1, hcache1⟩ := performFullSync_ok_proj env st rawNodes hn
    obtain ⟨hcf2, hc2, hd2, hcache2⟩ :=
      performFullSync_ok_proj env (performFullSync env st).st rawNodes hn
    have hcacheEq :
        (refreshServiceConfigs (listIntents env.services)
          (performFullSync env st).st).serviceConfigsCache =
        (refreshServiceConfigs (listIntents env.services) st).serviceConfigsCache := by
      cases hl : listIntents env.services with
      | ok l => simp [refreshServiceConfigs, hl]
      | error m =>
        simp only [refreshServiceConfigs, hl]
        rw [hcache1, hl]
        rfl
    have hcfEq :
        (refreshServiceConfigs (listIntents env.services) (performFullSync env st).st).cf =
          (performFullSync env st).st.cf := by
      cases hl : listIntents env.services <;> simp [refreshServiceConfigs, hl]
    have hspec := fullSyncMutations_spec (healthyIPsOf env rawNodes)
      (refreshServiceConfigs (listIntents env.services) st).serviceConfigsCache
      (refreshServiceConfigs (listIntents env.services) st).cf
    have hgood : ∀ c ∈ (refreshServiceConfigs (listIntents env.services)
          st).serviceConfigsCache,
        goodHost (healthyIPsOf env rawNodes) (performFullSync env st).st.cf c.hostname := by
      intro c hc
      rw [hcf1]
      exact (hspec.2 c hc).1
    have hfull : ∀ c ∈ (refreshServiceConfigs (listIntents env.services)
          st).serviceConfigsCache,
        fullHost (healthyIPsOf env rawNodes) (performFullSync env st).st.cf c.hostname := by
      intro c hc
      rw [hcf1]
      exact (hspec.2 c hc).2
    have hnoop := fullSyncMutations_noop (healthyIPsOf env rawNodes)
      (refreshServiceConfigs (listIntents env.services) st).serviceConfigsCache
      (performFullSync env st).st.cf hgood hfull
    refine ⟨?_, ?_, ?_⟩
    · rw [hc2, hcacheEq, hcfEq]
      exact hnoop.2.1
    · rw [hd2, hcacheEq, hcfEq]
      exact hnoop.2.2
    · rw [hcf2, hcacheEq, hcfEq, hnoop.1]

/-- C10 witness: a raising callback followed by a normal one, on an Added
event for a node carrying the full (one-key) deletion-taint set; both
callbacks are invoked. -/
theorem C10_witness :
    shouldTriggerCallback "ADDED"
        (dictGet? wsC5.nodeCache (extractNodeInfo dkOne rawT).name)
        (extractNodeInfo dkOne rawT) = true ∧
      ((raisingCb "ADDED" (extractNodeInfo dkOne rawT)
          (dispatchCallbacks [] "ADDED" (extractNodeInfo dkOne rawT) wsC5.mgr).1).2).isSome
        = true ∧
      (watchStep dkOne ([] ++ raisingCb :: [markerCb]) ("ADDED", rawT) wsC5).2 = 0 + 1 + 1 :=
  ⟨by decide, by decide,
    (C10_callback_exception_contained dkOne [] [markerCb] raisingCb "ADDED" rawT wsC5 []
      (by decide) (by decide)).1⟩

end Epictetus
